import Mathlib

/-!
Verification development for the ss.lv "plots and lands" two-phase scraper
(`ss_zeme.py`).  The Python source is shallowly embedded over `List Char`
strings: the pure string helpers (`norm_cat`, the regular-expression column
extractions) are translated character by character, and the network-facing
parts are parameterised by abstract site functions: a URL-indexed response
map for listing pages (`Site`, for runs in which every request returns,
together with its raising refinement `RaisingSite` whose `none` models an
uncaught request exception — transport error or retry budget exhausted),
an URL-indexed optional href list for category pages and an URL-indexed
optional page for ad pages, where `none` likewise models a raised request
exception.
-/

/-- `s.startswith(p)` on strings as `List Char`. -/
def isPfx : List Char → List Char → Bool
  | [], _ => true
  | _ :: _, [] => false
  | a :: as, b :: bs => a == b && isPfx as bs

/-- Is the character a slash? -/
def slashB (c : Char) : Bool := c == '/'

/-- Python `s.rstrip("/")`: remove every trailing slash. -/
def rstripSlash (s : List Char) : List Char := (s.reverse.dropWhile slashB).reverse

/-- Python `s.lstrip("/")`: remove every leading slash. -/
def lstripSlash (s : List Char) : List Char := s.dropWhile slashB

/-- Python `s.strip("/")`. -/
def stripSlash (s : List Char) : List Char := rstripSlash (lstripSlash s)

/-- Does the string end with a slash? -/
def endsSlash (s : List Char) : Bool :=
  match s.reverse with
  | [] => false
  | c :: _ => slashB c

/-- The literal `/sell` as a character list. -/
def sellL : List Char := ['/', 's', 'e', 'l', 'l']

/-- The literal `/sell/` as a character list. -/
def sellSlashL : List Char := ['/', 's', 'e', 'l', 'l', '/']

example : sellL = "/sell".data := by decide
example : sellSlashL = "/sell/".data := by decide

/-- A position matches the tail regex `/sell(?:/.*)?$` of `norm_cat` iff the
remaining suffix is exactly `/sell` or begins with `/sell/` (the `.*` then
swallows the rest of the string). -/
def sellTailB (t : List Char) : Bool := t == sellL || isPfx sellSlashL t

/-- `re.sub(r"/sell(?:/.*)?$", "", url)`: delete from the leftmost position
whose suffix matches the pattern to the end of the string. -/
def stripSell : List Char → List Char
  | [] => []
  | c :: cs => if sellTailB (c :: cs) then [] else c :: stripSell cs

/-- `BASE = "https://www.ss.lv"` (spelled as an explicit character list so
that it reduces definitionally). -/
def BASE : List Char :=
  ['h', 't', 't', 'p', 's', ':', '/', '/', 'w', 'w', 'w', '.', 's', 's', '.', 'l', 'v']

example : BASE = "https://www.ss.lv".data := by decide

/-- `ROOT = f"{BASE}/lv/real-estate/plots-and-lands/"`. -/
def ROOT : List Char := BASE ++ "/lv/real-estate/plots-and-lands/".data

/-- `norm_cat` from `ss_zeme.py`: prepend `BASE` to a root-relative URL,
strip trailing slashes, delete any `/sell...` tail, append one slash. -/
def norm_cat (url : List Char) : List Char :=
  let u1 := if isPfx ['/'] url then BASE ++ url else url
  stripSell (rstripSlash u1) ++ ['/']

example : norm_cat (ROOT ++ "sell/page3.html".data) = ROOT := by decide
example : norm_cat (ROOT ++ "sell/".data) = ROOT := by decide
example : norm_cat ROOT = ROOT := by decide
example : norm_cat "/lv/x//sell".data = (BASE ++ "/lv/x//".data) := by decide

/-! ### Basic facts about the `norm_cat` string operations -/

theorem isPfx_append_right {p a : List Char} (b : List Char) (h : isPfx p a = true) :
    isPfx p (a ++ b) = true := by
  induction p generalizing a with
  | nil => rfl
  | cons x p ih =>
    cases a with
    | nil => simp [isPfx] at h
    | cons y a =>
      simp [isPfx] at h ⊢
      exact ⟨h.1, ih h.2⟩

theorem isPfx_slash_iff (s : List Char) : isPfx ['/'] s = true ↔ ∃ t, s = '/' :: t := by
  cases s with
  | nil => simp [isPfx]
  | cons c cs =>
    constructor
    · intro h
      have hc : '/' = c := by simpa [isPfx] using h
      exact ⟨cs, by rw [← hc]⟩
    · rintro ⟨t, ht⟩
      cases ht
      simp [isPfx]

theorem sellTailB_slash {t : List Char} (h : sellTailB t = true) : ∃ t', t = '/' :: t' := by
  cases t with
  | nil => simp [sellTailB, sellL, sellSlashL, isPfx] at h
  | cons c cs =>
    have hc : c = '/' := by
      simp [sellTailB, sellL, sellSlashL, isPfx] at h
      rcases h with h | h
      · exact h.1
      · exact h.1.symm
    exact ⟨cs, by rw [hc]⟩

theorem stripSell_cut (s : List Char) :
    stripSell s = s ∨ ∃ t, s = stripSell s ++ t ∧ sellTailB t = true := by
  induction s with
  | nil => exact Or.inl rfl
  | cons c cs ih =>
    by_cases h : sellTailB (c :: cs) = true
    · refine Or.inr ⟨c :: cs, ?_, h⟩
      simp [stripSell, h]
    · have hs : stripSell (c :: cs) = c :: stripSell cs := by
        simp [stripSell, h]
      rcases ih with ih | ⟨t, ht, hT⟩
      · exact Or.inl (by rw [hs, ih])
      · refine Or.inr ⟨t, ?_, hT⟩
        rw [hs, List.cons_append, ← ht]

theorem stripSell_pfx (s : List Char) : ∃ t, s = stripSell s ++ t := by
  rcases stripSell_cut s with h | ⟨t, ht, _⟩
  · exact ⟨[], by simp [h]⟩
  · exact ⟨t, ht⟩

/-- Does some suffix of the string match the `/sell(?:/.*)?$` pattern? -/
def hasMatch : List Char → Bool
  | [] => false
  | c :: cs => sellTailB (c :: cs) || hasMatch cs

theorem stripSell_eq_self {s : List Char} (h : hasMatch s = false) : stripSell s = s := by
  induction s with
  | nil => rfl
  | cons c cs ih =>
    simp [hasMatch] at h
    simp [stripSell, h.1, ih h.2]

theorem sellTailB_stripSell_cons {c : Char} {cs : List Char}
    (h : ¬ sellTailB (c :: cs) = true) : sellTailB (c :: stripSell cs) = false := by
  by_contra hcon
  rw [Bool.not_eq_false] at hcon
  have hsplit : (c :: stripSell cs) = sellL ∨ isPfx sellSlashL (c :: stripSell cs) = true := by
    simpa [sellTailB] using hcon
  rcases hsplit with heq | hpfx
  · -- the prefix is exactly "/sell"
    rcases stripSell_cut cs with hid | ⟨t, ht, hT⟩
    · -- no cut inside cs: then c :: cs itself matches
      apply h
      rw [← hid]
      exact hcon
    · -- cs = stripSell cs ++ t with t a matching tail, so t starts with '/'
      rcases sellTailB_slash hT with ⟨t', rfl⟩
      apply h
      have : c :: cs = (c :: stripSell cs) ++ '/' :: t' := by rw [List.cons_append, ← ht]
      rw [this, heq]
      simp [sellTailB, sellL, sellSlashL, isPfx]
  · -- the prefix begins with "/sell/", hence so does c :: cs
    rcases stripSell_pfx cs with ⟨t, ht⟩
    apply h
    have : c :: cs = (c :: stripSell cs) ++ t := by rw [List.cons_append, ← ht]
    rw [this, sellTailB]
    rw [isPfx_append_right t hpfx]
    simp

theorem hasMatch_stripSell (s : List Char) : hasMatch (stripSell s) = false := by
  induction s with
  | nil => rfl
  | cons c cs ih =>
    by_cases h : sellTailB (c :: cs) = true
    · simp [stripSell, h, hasMatch]
    · have hnot : sellTailB (c :: stripSell cs) = false := sellTailB_stripSell_cons h
      simp [stripSell, h, hasMatch, hnot, ih]

theorem stripSell_stripSell (s : List Char) : stripSell (stripSell s) = stripSell s :=
  stripSell_eq_self (hasMatch_stripSell s)

theorem dropWhile_head_false {p : Char → Bool} :
    ∀ (l : List Char) {c : Char} {t : List Char}, l.dropWhile p = c :: t → p c = false := by
  intro l
  induction l with
  | nil => intro c t h; simp [List.dropWhile] at h
  | cons a l ih =>
    intro c t h
    by_cases ha : p a = true
    · rw [List.dropWhile_cons, if_pos ha] at h
      exact ih h
    · rw [List.dropWhile_cons, if_neg ha] at h
      cases h
      simpa using ha

theorem dropWhile_append_all {p : Char → Bool} :
    ∀ (a b : List Char), a.dropWhile p = [] → (a ++ b).dropWhile p = b.dropWhile p := by
  intro a
  induction a with
  | nil => intro b _; rfl
  | cons x a ih =>
    intro b h
    by_cases hx : p x = true
    · rw [List.dropWhile_cons, if_pos hx] at h
      rw [List.cons_append, List.dropWhile_cons, if_pos hx]
      exact ih b h
    · rw [List.dropWhile_cons, if_neg hx] at h
      simp at h

theorem dropWhile_append_cons {p : Char → Bool} :
    ∀ (a b : List Char) {c : Char} {t : List Char}, a.dropWhile p = c :: t →
      (a ++ b).dropWhile p = c :: (t ++ b) := by
  intro a
  induction a with
  | nil => intro b c t h; simp [List.dropWhile] at h
  | cons x a ih =>
    intro b c t h
    by_cases hx : p x = true
    · rw [List.dropWhile_cons, if_pos hx] at h
      rw [List.cons_append, List.dropWhile_cons, if_pos hx]
      exact ih b h
    · rw [List.dropWhile_cons, if_neg hx] at h
      cases h
      rw [List.cons_append, List.dropWhile_cons, if_neg hx]

theorem rstripSlash_concat (w : List Char) : rstripSlash (w ++ ['/']) = rstripSlash w := by
  simp [rstripSlash, List.dropWhile_cons, slashB]

theorem rstripSlash_eq_self {w : List Char} (h : endsSlash w = false) : rstripSlash w = w := by
  cases hw : w.reverse with
  | nil =>
    have hnil : w = [] := by simpa using congrArg List.reverse hw
    simp [rstripSlash, hnil]
  | cons c t =>
    have hc : slashB c = false := by simpa [endsSlash, hw] using h
    rw [rstripSlash, hw, List.dropWhile_cons, if_neg (by simp [hc]), ← hw,
      List.reverse_reverse]

theorem rstripSlash_endsSlash (s : List Char) :
    rstripSlash s = [] ∨ endsSlash (rstripSlash s) = false := by
  cases hd : s.reverse.dropWhile slashB with
  | nil => exact Or.inl (by simp [rstripSlash, hd])
  | cons c t =>
    right
    have hc : slashB c = false := dropWhile_head_false s.reverse hd
    have hrev : (rstripSlash s).reverse = c :: t := by simp [rstripSlash, hd]
    simp [endsSlash, hrev, hc]

theorem rstripSlash_pfx (s : List Char) : ∃ t, s = rstripSlash s ++ t := by
  refine ⟨(s.reverse.takeWhile slashB).reverse, ?_⟩
  have h := List.takeWhile_append_dropWhile slashB s.reverse
  calc s = s.reverse.reverse := (List.reverse_reverse s).symm
    _ = (s.reverse.takeWhile slashB ++ s.reverse.dropWhile slashB).reverse := by rw [h]
    _ = (s.reverse.dropWhile slashB).reverse ++ (s.reverse.takeWhile slashB).reverse := by
        rw [List.reverse_append]
    _ = rstripSlash s ++ (s.reverse.takeWhile slashB).reverse := rfl

theorem endsSlash_concat (w : List Char) (c : Char) :
    endsSlash (w ++ [c]) = slashB c := by
  simp [endsSlash]

theorem endsSlash_cons {c : Char} {t : List Char} (h : t ≠ []) :
    endsSlash (c :: t) = endsSlash t := by
  cases ht : t.reverse with
  | nil => exact absurd (by simpa using congrArg List.reverse ht) h
  | cons x xs =>
    have hrc : (c :: t).reverse = x :: (xs ++ [c]) := by simp [ht]
    simp [endsSlash, hrc, ht]

/-- No two consecutive slashes anywhere in the string. -/
def noDD : List Char → Bool
  | [] => true
  | [_] => true
  | a :: b :: t => !(a == '/' && b == '/') && noDD (b :: t)

theorem noDD_tail {a : Char} {t : List Char} (h : noDD (a :: t) = true) : noDD t = true := by
  cases t with
  | nil => rfl
  | cons b t' =>
    simp [noDD] at h
    exact h.2

theorem noDD_append_left : ∀ {l : List Char} (t : List Char), noDD (l ++ t) = true → noDD l = true := by
  intro l
  induction l with
  | nil => intro t _; rfl
  | cons a rest ih =>
    intro t h
    cases rest with
    | nil => rfl
    | cons b rest' =>
      simp only [List.cons_append] at h
      simp only [noDD] at h ⊢
      simp at h ⊢
      exact ⟨h.1, by simpa using ih t (by simpa [noDD] using h.2)⟩

theorem rstripSlash_BASE_append (b : List Char) :
    rstripSlash (BASE ++ b) = BASE ++ rstripSlash b := by
  have hB : BASE.reverse.dropWhile slashB = BASE.reverse := by decide
  cases hd : b.reverse.dropWhile slashB with
  | nil =>
    have h1 : (BASE ++ b).reverse.dropWhile slashB = BASE.reverse := by
      rw [List.reverse_append, dropWhile_append_all b.reverse BASE.reverse hd, hB]
    have h2 : rstripSlash b = [] := by simp [rstripSlash, hd]
    rw [rstripSlash, h1, List.reverse_reverse, h2, List.append_nil]
  | cons c t =>
    have h1 : (BASE ++ b).reverse.dropWhile slashB = c :: (t ++ BASE.reverse) := by
      rw [List.reverse_append]
      exact dropWhile_append_cons b.reverse BASE.reverse hd
    have h2 : rstripSlash b = (c :: t).reverse := by simp [rstripSlash, hd]
    rw [rstripSlash, h1, h2]
    simp

theorem stripSell_BASE_append (b : List Char)
    (hb : b = [] ∨ ∃ b', b = '/' :: b') : stripSell (BASE ++ b) = BASE ++ stripSell b := by
  rcases hb with rfl | ⟨b', rfl⟩
  · rfl
  · rfl

/-- If the input has no double slash and does not end with a slash, neither
does its `stripSell` image (or the image is empty). -/
theorem stripSell_endsSlash :
    ∀ {w : List Char}, endsSlash w = false → noDD w = true →
      stripSell w = [] ∨ endsSlash (stripSell w) = false := by
  intro w
  induction w with
  | nil => intro _ _; exact Or.inl rfl
  | cons c cs ih =>
    intro h1 h2
    by_cases hs : sellTailB (c :: cs) = true
    · exact Or.inl (by simp [stripSell, hs])
    · have hstep : stripSell (c :: cs) = c :: stripSell cs := by simp [stripSell, hs]
      right
      cases hcs : stripSell cs with
      | nil =>
        rw [hstep, hcs]
        cases cs with
        | nil =>
          simpa [endsSlash] using h1
        | cons d cs' =>
          -- stripSell (d :: cs') = [] forces a matching suffix, whose head is '/'
          have hm : sellTailB (d :: cs') = true := by
            by_contra hm
            rw [stripSell] at hcs
            simp [hm] at hcs
          rcases sellTailB_slash hm with ⟨t', ht'⟩
          have hdpair : d = '/' ∧ cs' = t' := by simpa using ht'
          have hd : d = '/' := hdpair.1
          have hcne : ¬ c = '/' := by
            subst hd
            simp [noDD] at h2
            exact fun hc => absurd h2.1 (by simp [hc])
          simp [endsSlash, slashB, hcne]
      | cons e es =>
        rw [hstep, hcs]
        rw [endsSlash_cons (by simp)]
        rw [← hcs]
        cases cs with
        | nil => simp [stripSell] at hcs
        | cons d cs' =>
          have hend : endsSlash (d :: cs') = false := by
            rw [← endsSlash_cons (c := c) (by simp)]
            exact h1
          rcases ih hend (noDD_tail h2) with hnil | hok
          · rw [hnil] at hcs; cases hcs
          · exact hok

theorem isPfx_self : ∀ a : List Char, isPfx a a = true := by
  intro a
  induction a with
  | nil => rfl
  | cons x as ih => simp [isPfx, ih]

theorem endsSlash_append_right (a : List Char) {w : List Char} (h : w ≠ []) :
    endsSlash (a ++ w) = endsSlash w := by
  cases hw : w.reverse with
  | nil => exact absurd (by simpa using congrArg List.reverse hw) h
  | cons x xs =>
    have hrev : (a ++ w).reverse = x :: (xs ++ a.reverse) := by
      rw [List.reverse_append, hw, List.cons_append]
    simp [endsSlash, hrev, hw]

/-- The canonical-URL core: everything `norm_cat` computes before appending
the final slash. -/
def normCore (url : List Char) : List Char :=
  stripSell (rstripSlash (if isPfx ['/'] url then BASE ++ url else url))

theorem norm_cat_core (u : List Char) : norm_cat u = normCore u ++ ['/'] := rfl

theorem normCore_pfx (u : List Char) :
    ∃ t, (if isPfx ['/'] u then BASE ++ u else u) = normCore u ++ t := by
  obtain ⟨t1, ht1⟩ := stripSell_pfx (rstripSlash (if isPfx ['/'] u then BASE ++ u else u))
  obtain ⟨t2, ht2⟩ := rstripSlash_pfx (if isPfx ['/'] u then BASE ++ u else u)
  refine ⟨t1 ++ t2, ?_⟩
  simp only [normCore]
  rw [← List.append_assoc, ← ht1, ← ht2]

theorem normCore_head {u : List Char} {c : Char} {w' : List Char}
    (hW : normCore u = c :: w') : ¬ c = '/' := by
  intro hc
  subst hc
  obtain ⟨t, ht⟩ := normCore_pfx u
  rw [hW] at ht
  by_cases hp : isPfx ['/'] u = true
  · rw [if_pos hp] at ht
    have hhd : List.head? (BASE ++ u) = some '/' := by rw [ht]; rfl
    simp [BASE] at hhd
  · rw [if_neg hp] at ht
    cases u with
    | nil => simp at ht
    | cons c₀ u'' =>
      have hc₀ : c₀ = '/' := by
        have h2 := ht
        simp at h2
        exact h2.1
      subst hc₀
      exact hp ((isPfx_slash_iff _).mpr ⟨u'', rfl⟩)

/-! ### Claims C5 and C4: `norm_cat` idempotence and canonical shape -/

/-- C5 (counterexample): `norm_cat` is *not* idempotent for every URL string.
On `"https://www.ss.lv/lv//sell"` the first application removes the `/sell`
tail, exposing the double slash and yielding `".../lv//"`; the second
application collapses it to `".../lv/"`. -/
theorem c5_norm_cat_not_idempotent_counterexample :
    norm_cat (norm_cat "https://www.ss.lv/lv//sell".data) ≠
      norm_cat "https://www.ss.lv/lv//sell".data := by decide

/-- C5 (amended): `norm_cat` is idempotent on every URL string whose
normalization is not the bare `"/"` and does not end in a double slash
(equivalently: whenever the canonical core is nonempty and slash-free at its
end, which holds for every well-formed category URL). -/
theorem c5_norm_cat_idempotent_amended (u : List Char)
    (h1 : norm_cat u ≠ ['/'])
    (h2 : endsSlash ((norm_cat u).dropLast) = false) :
    norm_cat (norm_cat u) = norm_cat u := by
  have hcore : norm_cat u = normCore u ++ ['/'] := rfl
  rcases hWnil : normCore u with _ | ⟨c, w'⟩
  · exact absurd (by rw [hcore, hWnil]; rfl) h1
  · have hc : ¬ c = '/' := normCore_head hWnil
    have hdrop : (norm_cat u).dropLast = normCore u := by
      rw [hcore]
      exact List.dropLast_concat
    rw [hdrop, hWnil] at h2
    have hp : isPfx ['/'] (norm_cat u) = false := by
      rw [hcore, hWnil, List.cons_append]
      simp [isPfx]
      exact fun hh => hc hh.symm
    show stripSell (rstripSlash
        (if isPfx ['/'] (norm_cat u) then BASE ++ norm_cat u else norm_cat u)) ++ ['/'] =
      norm_cat u
    rw [hp]
    simp only [Bool.false_eq_true, if_false]
    have hr : rstripSlash (norm_cat u) = normCore u := by
      rw [hcore, rstripSlash_concat]
      apply rstripSlash_eq_self
      rw [hWnil]
      exact h2
    rw [hr]
    have hss : stripSell (normCore u) = normCore u := by
      simp only [normCore, stripSell_stripSell]
    rw [hss, ← hcore]

/-- C5 (witness): the amended idempotence applies to a real category URL. -/
theorem c5_norm_cat_idempotent_witness :
    (norm_cat "/lv/real-estate/plots-and-lands/riga/sell/".data ≠ ['/'] ∧
      endsSlash ((norm_cat "/lv/real-estate/plots-and-lands/riga/sell/".data).dropLast) =
        false) ∧
    norm_cat (norm_cat "/lv/real-estate/plots-and-lands/riga/sell/".data) =
      norm_cat "/lv/real-estate/plots-and-lands/riga/sell/".data :=
  ⟨⟨by decide, by decide⟩,
    c5_norm_cat_idempotent_amended "/lv/real-estate/plots-and-lands/riga/sell/".data
      (by decide) (by decide)⟩

/-- C4 (counterexample): on the input URL `"/lv//sell"` (a `//` spelling),
`norm_cat` returns `"https://www.ss.lv/lv//"`, which ends in a double slash —
not "an absolute URL with a single trailing slash" as claimed for every
input. -/
theorem c4_norm_cat_counterexample :
    norm_cat "/lv//sell".data = BASE ++ "/lv//".data ∧
    endsSlash ((norm_cat "/lv//sell".data).dropLast) = true :=
  ⟨by decide, by decide⟩

/-- C4 (amended): for every input URL that begins with `/` and contains no
double slash, `norm_cat` resolves it against the fixed base origin (the
result starts with `BASE`, and the base-prefixed spelling normalizes
identically), strips the `/sell...` suffix (so `.../sell/page3.html`,
`.../sell/` and `.../` all normalize to the same canonical URL), and returns
a URL with a single trailing slash. -/
theorem c4_norm_cat_canonical_amended (u : List Char)
    (h1 : isPfx ['/'] u = true) (h2 : noDD u = true) :
    (norm_cat (ROOT ++ "sell/page3.html".data) = norm_cat (ROOT ++ "sell/".data) ∧
      norm_cat (ROOT ++ "sell/".data) = norm_cat ROOT) ∧
    norm_cat (BASE ++ u) = norm_cat u ∧
    isPfx BASE (norm_cat u) = true ∧
    endsSlash (norm_cat u) = true ∧
    endsSlash ((norm_cat u).dropLast) = false := by
  obtain ⟨u', rfl⟩ := (isPfx_slash_iff u).mp h1
  have hrw : norm_cat ('/' :: u') =
      stripSell (rstripSlash (BASE ++ ('/' :: u'))) ++ ['/'] := rfl
  obtain ⟨t, ht⟩ := rstripSlash_pfx ('/' :: u')
  have hnoDDs : noDD (rstripSlash ('/' :: u')) = true :=
    noDD_append_left t (by rw [← ht]; exact h2)
  have hshape : rstripSlash ('/' :: u') = [] ∨ ∃ y, rstripSlash ('/' :: u') = '/' :: y := by
    cases hsv : rstripSlash ('/' :: u') with
    | nil => exact Or.inl rfl
    | cons c y =>
      right
      refine ⟨y, ?_⟩
      rw [hsv] at ht
      have hc : '/' = c ∧ u' = y ++ t := by simpa using ht
      rw [← hc.1]
  have hsb := stripSell_BASE_append (rstripSlash ('/' :: u')) hshape
  have hmain : norm_cat ('/' :: u') =
      (BASE ++ stripSell (rstripSlash ('/' :: u'))) ++ ['/'] := by
    rw [hrw, rstripSlash_BASE_append, hsb]
  have hcoreEnd : stripSell (rstripSlash ('/' :: u')) = [] ∨
      endsSlash (stripSell (rstripSlash ('/' :: u'))) = false := by
    rcases rstripSlash_endsSlash ('/' :: u') with hnil | hok
    · rw [hnil]
      exact Or.inl rfl
    · exact stripSell_endsSlash hok hnoDDs
  refine ⟨⟨by decide, by decide⟩, rfl, ?_, ?_, ?_⟩
  · rw [hmain, List.append_assoc]
    exact isPfx_append_right _ (isPfx_self BASE)
  · rw [hmain, endsSlash_concat]
    rfl
  · rw [hmain, List.dropLast_concat]
    cases hq : stripSell (rstripSlash ('/' :: u')) with
    | nil =>
      rw [List.append_nil]
      decide
    | cons e es =>
      rw [endsSlash_append_right BASE (by simp)]
      rw [hq] at hcoreEnd
      rcases hcoreEnd with hnil | hend
      · cases hnil
      · exact hend

/-- C4 (witness): the amended canonical-shape theorem applies to a real
region URL. -/
theorem c4_norm_cat_canonical_witness :
    (isPfx ['/'] "/lv/real-estate/plots-and-lands/riga/".data = true ∧
      noDD "/lv/real-estate/plots-and-lands/riga/".data = true) ∧
    ((norm_cat (ROOT ++ "sell/page3.html".data) = norm_cat (ROOT ++ "sell/".data) ∧
      norm_cat (ROOT ++ "sell/".data) = norm_cat ROOT) ∧
    norm_cat (BASE ++ "/lv/real-estate/plots-and-lands/riga/".data) =
      norm_cat "/lv/real-estate/plots-and-lands/riga/".data ∧
    isPfx BASE (norm_cat "/lv/real-estate/plots-and-lands/riga/".data) = true ∧
    endsSlash (norm_cat "/lv/real-estate/plots-and-lands/riga/".data) = true ∧
    endsSlash ((norm_cat "/lv/real-estate/plots-and-lands/riga/".data).dropLast) = false) :=
  ⟨⟨by decide, by decide⟩,
    c4_norm_cat_canonical_amended "/lv/real-estate/plots-and-lands/riga/".data
      (by decide) (by decide)⟩

/-! ### Abstract model of the listing side of the remote site -/

/-- An ad row `<tr id="tr_...">`, reduced to its list of `<td>` cells, each
cell carrying the `href` of its first anchor (`none` when the cell has no
anchor with an href). -/
abbrev Row : Type := List (Option (List Char))

/-- The response the shared session yields for a listing-page URL: HTTP
status code, the `tr_`-prefixed rows parsed from the body, and the final
resolved URL after following redirects. -/
structure Resp where
  status : Nat
  rows : List Row
  finalUrl : List Char
deriving DecidableEq

/-- The remote site, as a total map from requested URL to response. -/
abbrev Site : Type := List Char → Resp

/-- `listing_rows`: on a non-200 status returns `([], r.url)`, otherwise the
parsed rows together with the final resolved URL. -/
def listing_rows (site : Site) (url : List Char) : List Row × List Char :=
  if (site url).status ≠ 200 then ([], (site url).finalUrl)
  else ((site url).rows, (site url).finalUrl)

/-- `row_to_link`: a row with fewer than three cells yields no link; else the
anchor of the second cell, if present, resolved against `BASE`. -/
def row_to_link (row : Row) : Option (List Char) :=
  if row.length < 3 then none
  else
    match row.get? 1 with
    | some (some href) => some (BASE ++ href)
    | _ => none

/-- The URL requested for page `page` of a `/sell/` listing:
`sell_url` itself for page 1, else `f"{sell_url}page{page}.html"`. -/
def pageUrl (sell_url : List Char) (page : Nat) : List Char :=
  if page = 1 then sell_url
  else sell_url ++ ("page".data ++ (Nat.repr page).data ++ ".html".data)

/-- The `while` loop of `discover_pagination_for_sell`, with the remaining
page budget as explicit fuel (`fuel = max_pages - page + 1`). -/
def discover_go (site : Site) (sell_url : List Char) : Nat → Nat → List (List Char)
  | 0, _ => []
  | fuel + 1, page =>
    if 1 < page ∧
        rstripSlash (listing_rows site (pageUrl sell_url page)).2 ≠
          rstripSlash (pageUrl sell_url page) then []
    else if (listing_rows site (pageUrl sell_url page)).1 = [] then []
    else pageUrl sell_url page :: discover_go site sell_url fuel (page + 1)

/-- `discover_pagination_for_sell(sell_url, max_pages)` (the source default
for `max_pages` is 300). -/
def discover_pagination_for_sell (site : Site) (sell_url : List Char)
    (max_pages : Nat) : List (List Char) :=
  discover_go site sell_url max_pages 1

theorem discover_go_succ (site : Site) (u : List Char) (fuel page : Nat) :
    discover_go site u (fuel + 1) page =
      if 1 < page ∧
          rstripSlash (listing_rows site (pageUrl u page)).2 ≠
            rstripSlash (pageUrl u page) then []
      else if (listing_rows site (pageUrl u page)).1 = [] then []
      else pageUrl u page :: discover_go site u fuel (page + 1) := rfl

/-- Every page in the pagination result, other than page 1, had a final
resolved URL agreeing with the requested URL up to trailing slashes. -/
theorem discover_go_no_redirect (site : Site) (u : List Char) :
    ∀ (fuel page : Nat), 1 ≤ page →
      ∀ q ∈ discover_go site u fuel page,
        q = u ∨ rstripSlash (listing_rows site q).2 = rstripSlash q := by
  intro fuel
  induction fuel with
  | zero =>
    intro page _ q hq
    simp [discover_go] at hq
  | succ fuel ih =>
    intro page hpage q hq
    rw [discover_go_succ] at hq
    by_cases hred : 1 < page ∧
        rstripSlash (listing_rows site (pageUrl u page)).2 ≠ rstripSlash (pageUrl u page)
    · rw [if_pos hred] at hq
      simp at hq
    · rw [if_neg hred] at hq
      by_cases hemp : (listing_rows site (pageUrl u page)).1 = []
      · rw [if_pos hemp] at hq
        simp at hq
      · rw [if_neg hemp] at hq
        rcases List.mem_cons.mp hq with rfl | hmem
        · by_cases hp1 : page = 1
          · subst hp1
            exact Or.inl rfl
          · right
            have hgt : 1 < page := Nat.lt_of_le_of_ne hpage (Ne.symm hp1)
            by_contra hne
            exact hred ⟨hgt, hne⟩
        · exact ih (page + 1) (Nat.le_succ_of_le hpage) q hmem

/-! ### Claim C2: pagination termination on redirect -/

/-- A well-formed ad row used by the concrete test sites. -/
def rowA : Row :=
  [none, some "/msg/lv/real-estate/plots-and-lands/riga/centre/a1.html".data, none]

/-- Sell URL of the synthetic category used by the C2 counterexample. -/
def c2xU : List Char := ROOT ++ "jurmala/sell/".data

/-- Synthetic site where page 2 resolves to its own URL *plus a trailing
slash* (a final URL that differs from the requested one as a string), and
page 3 is empty. -/
def c2xSite : Site := fun url =>
  if url = c2xU then ⟨200, [rowA], c2xU⟩
  else if url = pageUrl c2xU 2 then ⟨200, [rowA], pageUrl c2xU 2 ++ ['/']⟩
  else ⟨200, [], url⟩

/-- C2 (counterexample): the claim says that whenever the final resolved URL
differs from the requested page URL, the redirected page is not included.
The code compares the URLs only after `rstrip("/")`: here page 2's final URL
differs from the requested URL, yet page 2 is kept in the result. -/
theorem c2_redirect_counterexample :
    (listing_rows c2xSite (pageUrl c2xU 2)).2 ≠ pageUrl c2xU 2 ∧
    pageUrl c2xU 2 ∈ discover_pagination_for_sell c2xSite c2xU 300 :=
  ⟨by decide, by decide⟩

/-- C2 (amended): pagination stops when the final resolved URL of a page
beyond page 1 differs from the requested URL *after stripping trailing
slashes*; every page kept in the result, apart from page 1, was resolved to
its requested URL up to trailing slashes.  In particular, when page 2 is
redirected to page 1's URL, the result is exactly `[page-1 URL]`, whatever
rows the redirect target contains. -/
theorem c2_pagination_redirect_amended (site : Site) (u : List Char)
    (hstat : (site (pageUrl u 1)).status = 200)
    (hrows : (site (pageUrl u 1)).rows ≠ [])
    (hred : rstripSlash (listing_rows site (pageUrl u 2)).2 ≠ rstripSlash (pageUrl u 2)) :
    (∀ q ∈ discover_pagination_for_sell site u 300,
      q = u ∨ rstripSlash (listing_rows site q).2 = rstripSlash q) ∧
    discover_pagination_for_sell site u 300 = [u] := by
  constructor
  · exact discover_go_no_redirect site u 300 1 (by norm_num)
  · have hgo2 : discover_go site u 299 2 = [] := by
      show discover_go site u (298 + 1) 2 = []
      rw [discover_go_succ, if_pos ⟨by norm_num, hred⟩]
    have hne : ¬ (listing_rows site (pageUrl u 1)).1 = [] := by
      simp only [listing_rows, hstat]
      simp
      exact hrows
    show discover_go site u (299 + 1) 1 = [u]
    rw [discover_go_succ, if_neg (by simp), if_neg hne, hgo2]
    rfl

/-- Sell URL of the synthetic category used by the C2 witness. -/
def c2wU : List Char := ROOT ++ "riga/sell/".data

/-- Synthetic site where requesting page 2 redirects back to page 1's URL
while still serving rows. -/
def c2wSite : Site := fun url =>
  if url = c2wU then ⟨200, [rowA], c2wU⟩
  else if url = pageUrl c2wU 2 then ⟨200, [rowA], c2wU⟩
  else ⟨404, [], url⟩

/-- C2 (witness): on the synthetic redirected category, pagination stops
after page 1 and the result is exactly the page-1 URL. -/
theorem c2_pagination_redirect_witness :
    ((c2wSite (pageUrl c2wU 1)).status = 200 ∧
      (c2wSite (pageUrl c2wU 1)).rows ≠ [] ∧
      rstripSlash (listing_rows c2wSite (pageUrl c2wU 2)).2 ≠
        rstripSlash (pageUrl c2wU 2)) ∧
    ((∀ q ∈ discover_pagination_for_sell c2wSite c2wU 300,
      q = c2wU ∨ rstripSlash (listing_rows c2wSite q).2 = rstripSlash q) ∧
    discover_pagination_for_sell c2wSite c2wU 300 = [c2wU]) :=
  ⟨⟨by decide, by decide, by decide⟩,
    c2_pagination_redirect_amended c2wSite c2wU (by decide) (by decide) (by decide)⟩

/-! ### Claim C1: global link dedup in first-seen order -/

/-- The inner `for row in rows` loop of `collect_ad_links_from_pages`,
threading the `seen` set (as a list with membership semantics) and the
accumulated `all_links`. -/
def addRows : List Row → List (List Char) → List (List Char) →
    List (List Char) × List (List Char)
  | [], seen, acc => (seen, acc)
  | row :: rest, seen, acc =>
    match row_to_link row with
    | some href =>
      if href ∈ seen then addRows rest seen acc
      else addRows rest (href :: seen) (acc ++ [href])
    | none => addRows rest seen acc

/-- The outer loop of `collect_ad_links_from_pages` over
`(owner_url, page_url)` pairs: a non-200 page is skipped. -/
def collect_go (site : Site) :
    List (List Char × List Char) → List (List Char) → List (List Char) → List (List Char)
  | [], _, acc => acc
  | op :: rest, seen, acc =>
    if (site op.2).status ≠ 200 then collect_go site rest seen acc
    else
      collect_go site rest (addRows (site op.2).rows seen acc).1
        (addRows (site op.2).rows seen acc).2

/-- `collect_ad_links_from_pages(listing_pages)`. -/
def collect_ad_links_from_pages (site : Site)
    (listing_pages : List (List Char × List Char)) : List (List Char) :=
  collect_go site listing_pages [] []

/-- The links contributed by one listing page, in row order (empty for a
page whose fetch fails). -/
def pageLinks (site : Site) (p : List Char) : List (List Char) :=
  if (site p).status = 200 then (site p).rows.filterMap row_to_link else []

/-- All candidate ad links of a listing-page list, concatenated in page
order — the raw stream before deduplication. -/
def allLinks (site : Site) : List (List Char × List Char) → List (List Char)
  | [] => []
  | op :: rest => pageLinks site op.2 ++ allLinks site rest

/-- Deduplication relative to an already-seen set. -/
def dedupSeen : List (List Char) → List (List Char) → List (List Char)
  | _, [] => []
  | seen, x :: xs =>
    if x ∈ seen then dedupSeen seen xs else x :: dedupSeen (x :: seen) xs

/-- Specification-side definition of the aggregation contract: deduplicate a
sequence by exact value, keeping the first occurrence of each element and
preserving the order of first appearances. -/
def keepFirst : List (List Char) → List (List Char)
  | [] => []
  | x :: xs => x :: keepFirst (xs.filter (fun y => decide (¬ y = x)))
  termination_by l => l.length
  decreasing_by
    simp only [List.length_cons]
    exact Nat.lt_succ_of_le (List.length_filter_le _ _)

theorem keepFirst_nil : keepFirst [] = [] := by
  rw [keepFirst]

theorem keepFirst_cons (x : List Char) (xs : List (List Char)) :
    keepFirst (x :: xs) = x :: keepFirst (xs.filter (fun y => decide (¬ y = x))) := by
  rw [keepFirst]

theorem addRows_spec (rows : List Row) :
    ∀ (seen acc : List (List Char)),
      addRows rows seen acc =
        ((dedupSeen seen (rows.filterMap row_to_link)).reverse ++ seen,
          acc ++ dedupSeen seen (rows.filterMap row_to_link)) := by
  induction rows with
  | nil => intro seen acc; simp [addRows, dedupSeen]
  | cons row rest ih =>
    intro seen acc
    cases hr : row_to_link row with
    | none =>
      rw [List.filterMap_cons_none hr]
      simp only [addRows, hr]
      exact ih seen acc
    | some href =>
      rw [List.filterMap_cons_some hr]
      by_cases hs : href ∈ seen
      · simp only [addRows, hr, if_pos hs, dedupSeen]
        exact ih seen acc
      · simp only [addRows, hr, if_neg hs, dedupSeen]
        rw [ih (href :: seen) (acc ++ [href])]
        simp [List.append_assoc]

theorem dedupSeen_append (l1 : List (List Char)) :
    ∀ (l2 : List (List Char)) (seen : List (List Char)),
      dedupSeen seen (l1 ++ l2) =
        dedupSeen seen l1 ++ dedupSeen ((dedupSeen seen l1).reverse ++ seen) l2 := by
  induction l1 with
  | nil => intro l2 seen; rfl
  | cons x l1 ih =>
    intro l2 seen
    by_cases hx : x ∈ seen
    · simp only [List.cons_append, dedupSeen, if_pos hx]
      exact ih l2 seen
    · simp only [List.cons_append, dedupSeen, if_neg hx]
      rw [show l1.append l2 = l1 ++ l2 from rfl, ih l2 (x :: seen)]
      simp

theorem collect_go_spec (site : Site) (ps : List (List Char × List Char)) :
    ∀ (seen acc : List (List Char)),
      collect_go site ps seen acc = acc ++ dedupSeen seen (allLinks site ps) := by
  induction ps with
  | nil => intro seen acc; simp [collect_go, allLinks, dedupSeen]
  | cons op rest ih =>
    intro seen acc
    by_cases hst : (site op.2).status = 200
    · have hno : ¬ (site op.2).status ≠ 200 := by simpa using hst
      simp only [collect_go, if_neg hno]
      rw [addRows_spec (site op.2).rows seen acc]
      rw [ih]
      simp only [allLinks, pageLinks, if_pos hst]
      rw [dedupSeen_append, List.append_assoc]
    · simp only [collect_go, if_pos hst]
      rw [ih]
      simp only [allLinks, pageLinks, if_neg hst]
      rfl

theorem dedupSeen_eq_keepFirst (l : List (List Char)) :
    ∀ seen : List (List Char),
      dedupSeen seen l = keepFirst (l.filter (fun y => decide (¬ y ∈ seen))) := by
  induction l with
  | nil =>
    intro seen
    rw [List.filter_nil, keepFirst_nil]
    rfl
  | cons x t ih =>
    intro seen
    by_cases hx : x ∈ seen
    · rw [List.filter_cons_of_neg (by simp [hx])]
      simp only [dedupSeen, if_pos hx]
      exact ih seen
    · rw [List.filter_cons_of_pos (by simp [hx])]
      simp only [dedupSeen, if_neg hx]
      rw [keepFirst_cons]
      have hff : (t.filter fun y => decide (¬ y ∈ seen)).filter (fun y => decide (¬ y = x)) =
          t.filter (fun y => decide (¬ y ∈ x :: seen)) := by
        rw [List.filter_filter]
        apply List.filter_congr
        intro y _
        simp [List.mem_cons, not_or]
      rw [hff, ← ih (x :: seen)]

/-- The whole of `collect_ad_links_from_pages` equals first-seen-order
deduplication of the raw concatenated link stream. -/
theorem collect_eq_keepFirst (site : Site) (pages : List (List Char × List Char)) :
    collect_ad_links_from_pages site pages = keepFirst (allLinks site pages) := by
  rw [collect_ad_links_from_pages, collect_go_spec, dedupSeen_eq_keepFirst]
  have hfil : (allLinks site pages).filter (fun y => decide (¬ y ∈ ([] : List (List Char)))) =
      allLinks site pages := by
    apply List.filter_eq_self.mpr
    intro y _
    simp
  rw [hfil]
  rfl

/-! ### Ad-page model and field extraction (`parse_ad_details`) -/

/-- An ad detail page: the text of elements keyed by structural id (the
first match of `soup.find(id=...)`), plus the text surrounding the first
`Datums:` label (`none` when no text node matches `\bDatums:`). -/
structure AdPage where
  idTexts : List (List Char × List Char)
  datums : Option (List Char)
deriving DecidableEq

/-- The ad side of the remote site: `none` models a request that raises
inside `parse_ad_details` (non-2xx after retries, or a transport error). -/
abbrev AdSite : Type := List Char → Option AdPage

/-- `extract_text_by_id(soup, el_id, default)`: the text of the first
element carrying the id, else the sentinel default (always `"NA"` at the
source's call sites). -/
def extract_text_by_id (page : List (List Char × List Char)) (el_id dflt : List Char) :
    List Char :=
  match page.find? (fun p => p.1 == el_id) with
  | some p => p.2
  | none => dflt

/-- Match `\d{2}\.\d{2}\.\d{4}\.` at the start of the string. -/
def dateAt1 : List Char → Option (List Char)
  | a :: b :: '.' :: c :: d :: '.' :: e :: f :: g :: h :: '.' :: _ =>
    if a.isDigit && b.isDigit && c.isDigit && d.isDigit &&
        e.isDigit && f.isDigit && g.isDigit && h.isDigit then
      some [a, b, '.', c, d, '.', e, f, g, h, '.']
    else none
  | _ => none

/-- Match `\d{4}-\d{2}-\d{2}` at the start of the string. -/
def dateAt2 : List Char → Option (List Char)
  | a :: b :: c :: d :: '-' :: e :: f :: '-' :: g :: h :: _ =>
    if a.isDigit && b.isDigit && c.isDigit && d.isDigit &&
        e.isDigit && f.isDigit && g.isDigit && h.isDigit then
      some [a, b, c, d, '-', e, f, '-', g, h]
    else none
  | _ => none

/-- `re.search(r"(\d{2}\.\d{2}\.\d{4}\.|\d{4}-\d{2}-\d{2})", text)`:
leftmost match, first alternative preferred at equal positions. -/
def findDate : List Char → Option (List Char)
  | [] => none
  | c :: cs =>
    match dateAt1 (c :: cs) with
    | some m => some m
    | none =>
      match dateAt2 (c :: cs) with
      | some m => some m
      | none => findDate cs

/-- `extract_datums`: sentinel when no `Datums:` label exists; else the date
substring if one matches, else the raw surrounding text verbatim. -/
def extract_datums (pg : AdPage) : List Char :=
  match pg.datums with
  | none => "NA".data
  | some t => (findDate t).getD t

/-- The raw record `parse_ad_details` builds for one ad URL. -/
structure AdRecord where
  link : List Char
  pilseta : List Char
  iela : List Char
  ciems : List Char
  platiba : List Char
  cena : List Char
  zemesTips : List Char
  zemesNumurs : List Char
  datums : List Char
deriving DecidableEq

/-- `parse_ad_details(url)`: `none` when the page fetch raises, otherwise
the fixed field set extracted by structural ids (plus the label-searched
`Datums`). -/
def parse_ad_details (adSite : AdSite) (url : List Char) : Option AdRecord :=
  (adSite url).map (fun pg =>
    { link := url
      pilseta := extract_text_by_id pg.idTexts "tdo_20".data "NA".data
      iela := extract_text_by_id pg.idTexts "tdo_11".data "NA".data
      ciems := extract_text_by_id pg.idTexts "tdo_368".data "NA".data
      platiba := extract_text_by_id pg.idTexts "tdo_3".data "NA".data
      cena := extract_text_by_id pg.idTexts "tdo_8".data "NA".data
      zemesTips := extract_text_by_id pg.idTexts "tdo_228".data "NA".data
      zemesNumurs := extract_text_by_id pg.idTexts "tdo_1631".data "NA".data
      datums := extract_datums pg })

/-! ### Numeric normalization (`normalize_numeric_columns`) -/

/-- ASCII model of the regex class `\s`. -/
def isSpace (c : Char) : Bool :=
  c == ' ' || c == '\t' || c == '\n' || c == '\r' || c == '\x0B' || c == '\x0C'

/-- Character class `[\d\s]` of the price regex. -/
def isDS (c : Char) : Bool := c.isDigit || isSpace c

/-- Character class `[\d\.,\s]` of the price-per-m² regex. -/
def isP2c (c : Char) : Bool := c.isDigit || c == '.' || c == ',' || isSpace c

/-- Character class `[\d\.,]` of the area regex — note: no `\s`. -/
def isP3c (c : Char) : Bool := c.isDigit || c == '.' || c == ','

/-- `str.extract(r"([\d\s]+)\s*€")`: group 1 of the leftmost match — the
maximal `[\d\s]` run that is immediately followed by `€`. -/
def extractP1 : List Char → Option (List Char)
  | [] => none
  | c :: cs =>
    if isDS c then
      match (c :: cs).dropWhile isDS with
      | '€' :: _ => some ((c :: cs).takeWhile isDS)
      | _ => extractP1 cs
    else extractP1 cs

/-- `str.extract(r"\(([\d\.,\s]+)\s*€/m²\)")`: group 1 of the leftmost
match — a `(`, then a nonempty `[\d\.,\s]` run immediately followed by
`€/m²)`. -/
def extractP2 : List Char → Option (List Char)
  | [] => none
  | '(' :: cs =>
    if cs.takeWhile isP2c ≠ [] ∧ isPfx "€/m²)".data (cs.dropWhile isP2c) = true then
      some (cs.takeWhile isP2c)
    else extractP2 cs
  | _ :: cs => extractP2 cs

/-- `str.extract(r"([\d\.,]+)\s*(.*)")`: both groups of the leftmost match —
the maximal `[\d\.,]` run, and the rest of the string after any following
whitespace. -/
def extractP3 : List Char → Option (List Char × List Char)
  | [] => none
  | c :: cs =>
    if isP3c c then
      some ((c :: cs).takeWhile isP3c, ((c :: cs).dropWhile isP3c).dropWhile isSpace)
    else extractP3 cs

/-- `.str.replace(" ", "", regex=False)`. -/
def stripSpaces (s : List Char) : List Char := s.filter (fun c => decide (¬ c = ' '))

/-- `.str.replace(",", ".", regex=False)`. -/
def commaToDot (s : List Char) : List Char := s.map (fun c => if c = ',' then '.' else c)

/-- Value of a nonempty digit string. -/
def natOfDigits (l : List Char) : Nat := l.foldl (fun acc c => 10 * acc + (c.toNat - 48)) 0

/-- `pd.to_numeric(·, errors="coerce")` restricted to the strings this
pipeline can produce (digits and dots): an optional integer part and an
optional fractional part around at most one dot, at least one digit in
total; anything else coerces to null. -/
def to_numeric (s : List Char) : Option Rat :=
  match s.dropWhile Char.isDigit with
  | [] => if s.takeWhile Char.isDigit = [] then none else some (mkRat (natOfDigits s) 1)
  | '.' :: frac =>
    if frac.all Char.isDigit ∧ (s.takeWhile Char.isDigit ≠ [] ∨ frac ≠ []) then
      some (mkRat (natOfDigits (s.takeWhile Char.isDigit) * 10 ^ frac.length +
        natOfDigits frac) (10 ^ frac.length))
    else none
  | _ => none

/-- The `Cena EUR` column for one raw price string. -/
def cenaEUR_of (cena : List Char) : Option Rat :=
  ((extractP1 cena).map stripSpaces).bind to_numeric

/-- The `Cena m2` column for one raw price string. -/
def cenaM2_of (cena : List Char) : Option Rat :=
  ((extractP2 cena).map (fun g => commaToDot (stripSpaces g))).bind to_numeric

/-- The `Platiba Daudzums` column for one raw area string. -/
def platibaDaudzums_of (platiba : List Char) : Option Rat :=
  ((extractP3 platiba).map (fun g => commaToDot (stripSpaces g.1))).bind to_numeric

/-- The `Platiba Mervieniba` column for one raw area string (`fillna("")`
turns a missing group into the empty string). -/
def platibaMervieniba_of (platiba : List Char) : List Char :=
  match extractP3 platiba with
  | some g => g.2
  | none => []

example : cenaEUR_of "15 000 € (150,00 €/m²)".data = some 15000 := by decide
example : cenaM2_of "15 000 € (150,00 €/m²)".data = some 150 := by decide
example : platibaDaudzums_of "2500 m²".data = some 2500 := by decide
example : platibaMervieniba_of "2500 m²".data = "m²".data := by decide
example : platibaDaudzums_of "NA".data = none := by decide
example : platibaMervieniba_of "NA".data = [] := by decide

/-! ### Final records, collection-date stamping and `phase2_scrape_inventory` -/

/-- One row of the final DataFrame: the extracted string fields, the
`Datu iev.` collection-date stamp, and the numeric columns produced by
`normalize_numeric_columns` (the raw `Cena`/`Platiba` columns are dropped). -/
structure FinalRecord where
  link : List Char
  pilseta : List Char
  iela : List Char
  ciems : List Char
  zemesTips : List Char
  zemesNumurs : List Char
  datums : List Char
  datuIev : List Char
  cenaEUR : Option Rat
  cenaM2 : Option Rat
  platibaDaudzums : Option Rat
  platibaMervieniba : List Char
deriving DecidableEq

/-- One row of `df["Datu iev."] = ...` followed by
`normalize_numeric_columns(df)` (pandas column operations act row-wise; the
`fillna("NA").astype(str)` steps are identities here because every extracted
field is a string). -/
def normalize_row (r : AdRecord) (datuIev : List Char) : FinalRecord :=
  { link := r.link
    pilseta := r.pilseta
    iela := r.iela
    ciems := r.ciems
    zemesTips := r.zemesTips
    zemesNumurs := r.zemesNumurs
    datums := r.datums
    datuIev := datuIev
    cenaEUR := cenaEUR_of r.cena
    cenaM2 := cenaM2_of r.cena
    platibaDaudzums := platibaDaudzums_of r.platiba
    platibaMervieniba := platibaMervieniba_of r.platiba }

/-- Proleptic-Gregorian date of a day count since 1970-01-01
(the standard civil-from-days conversion, valid for nonnegative day
numbers): `(year, month, day)`. -/
def civilFromDays (z0 : Nat) : Nat × Nat × Nat :=
  let z := z0 + 719468
  let era := z / 146097
  let doe := z % 146097
  let yoe := (doe - doe / 1460 + doe / 36524 - doe / 146096) / 365
  let y0 := yoe + era * 400
  let doy := doe - (365 * yoe + yoe / 4 - yoe / 100)
  let mp := (5 * doy + 2) / 153
  let d := doy - (153 * mp + 2) / 5 + 1
  let m := if mp < 10 then mp + 3 else mp - 9
  (if m ≤ 2 then y0 + 1 else y0, m, d)

/-- Zero-padded two-digit decimal. -/
def pad2 (n : Nat) : List Char :=
  if n < 10 then '0' :: (Nat.repr n).data else (Nat.repr n).data

/-- `strftime("%Y-%m-%d")` of the date holding at `epochSec` seconds since
the epoch. -/
def formatDate (epochSec : Nat) : List Char :=
  (Nat.repr (civilFromDays (epochSec / 86400)).1).data ++
    '-' :: pad2 (civilFromDays (epochSec / 86400)).2.1 ++
    '-' :: pad2 (civilFromDays (epochSec / 86400)).2.2

example : formatDate 0 = "1970-01-01".data := by decide
example : formatDate 1735603200 = "2024-12-31".data := by decide
example : formatDate 1735689600 = "2025-01-01".data := by decide

/-- Modelled semantics of `datetime.today().strftime("%Y-%m-%d")`: the
process clock reads UTC instant `utcSec` (seconds since the epoch) while the
host timezone is `tzOffSec` seconds east of UTC; `datetime.today()` is local
time, i.e. the instant `utcSec + tzOffSec`. -/
def localDate (utcSec : Nat) (tzOffSec : Int) : List Char :=
  formatDate ((utcSec : Int) + tzOffSec).toNat

/-- `df.drop_duplicates(subset=["Link"])` (pandas keeps the first row of
each duplicate group), threaded with the set of links already kept. -/
def drop_duplicates_by_link : List (List Char) → List FinalRecord → List FinalRecord
  | _, [] => []
  | seen, r :: rs =>
    if r.link ∈ seen then drop_duplicates_by_link seen rs
    else r :: drop_duplicates_by_link (r.link :: seen) rs

/-- The per-ad loop of `phase2_scrape_inventory`: a link whose fetch raises
is caught, logged and skipped. -/
def phase2_details (adSite : AdSite) (links : List (List Char)) : List AdRecord :=
  links.filterMap (parse_ad_details adSite)

/-- `phase2_scrape_inventory(listing_pages)`: collect the unique ad links,
parse each ad (skipping failures), stamp `Datu iev.` with the run's
`datetime.today()` date, normalize numeric columns, and drop duplicate
links keeping the first occurrence.  (The early return on an empty
DataFrame yields the same empty record list.) -/
def phase2_scrape_inventory (site : Site) (adSite : AdSite) (utcSec : Nat) (tzOffSec : Int)
    (listing_pages : List (List Char × List Char)) : List FinalRecord :=
  drop_duplicates_by_link []
    ((phase2_details adSite (collect_ad_links_from_pages site listing_pages)).map
      (fun d => normalize_row d (localDate utcSec tzOffSec)))

/-! ### Phase-1 discovery model (`discover_regions`, `phase1_discover_inventory`) -/

/-- The category side of the remote site: the `class="a_category"` href
values of a category page in document order.  `none` models `get_soup`
raising (`raise_for_status` or a transport error) — phase 1 installs no
handler for that exception. -/
abbrev CatSite : Type := List Char → Option (List (List Char))

/-- The scope filter `href.startswith("/lv/real-estate/plots-and-lands/")`. -/
def scopePfx (href : List Char) : Bool :=
  isPfx "/lv/real-estate/plots-and-lands/".data href

/-- Python `s.split("/")`, with the accumulator holding the current segment
reversed. -/
def splitSlashGo : List Char → List Char → List (List Char)
  | [], cur => [cur.reverse]
  | '/' :: rest, cur => cur.reverse :: splitSlashGo rest []
  | c :: rest, cur => splitSlashGo rest (c :: cur)

/-- Python `s.split("/")`. -/
def splitSlash (s : List Char) : List (List Char) := splitSlashGo s []

example : splitSlash "a//b".data = ["a".data, [], "b".data] := by decide

/-- Lexicographic code-point string order, as Python `sorted` compares. -/
def lexLeB : List Char → List Char → Bool
  | [], _ => true
  | _ :: _, [] => false
  | a :: as, b :: bs => if a = b then lexLeB as bs else decide (a < b)

/-- Ascending stable insertion. -/
def ordIns (a : List Char) : List (List Char) → List (List Char)
  | [] => [a]
  | b :: bs => if lexLeB a b then a :: b :: bs else b :: ordIns a bs

/-- Python `sorted` on string lists (an insertion sort; on the duplicate-free
lists produced by discovery the ascending permutation is unique, so any
correct sort agrees with it). -/
def pySorted : List (List Char) → List (List Char)
  | [] => []
  | a :: as => ordIns a (pySorted as)

theorem ordIns_perm (a : List Char) : ∀ l, List.Perm (ordIns a l) (a :: l) := by
  intro l
  induction l with
  | nil => exact List.Perm.refl [a]
  | cons b bs ih =>
    by_cases h : lexLeB a b = true
    · simp only [ordIns, if_pos h]
      exact List.Perm.refl _
    · simp only [ordIns, if_neg h]
      exact (List.Perm.cons b ih).trans (List.Perm.swap a b bs)

theorem pySorted_perm : ∀ l, List.Perm (pySorted l) l := by
  intro l
  induction l with
  | nil => exact List.Perm.refl []
  | cons a as ih => exact (ordIns_perm a (pySorted as)).trans (List.Perm.cons a ih)

/-- The filtering loop of `discover_regions`: keep the normalized URL of
every in-scope href that is not the root, not yet seen, and exactly one
path segment deeper than the root. -/
def regionsGo (rootN : List Char) (baseLen : Nat) :
    List (List Char) → List (List Char) → List (List Char)
  | [], _ => []
  | href :: rest, seen =>
    if scopePfx href = true then
      if norm_cat href ≠ rootN ∧ norm_cat href ∉ seen ∧
          (splitSlash (stripSlash (norm_cat href))).length = baseLen + 1 then
        norm_cat href :: regionsGo rootN baseLen rest (norm_cat href :: seen)
      else regionsGo rootN baseLen rest seen
    else regionsGo rootN baseLen rest seen

/-- `discover_regions(root)`: fetch the normalized root page and return the
sorted in-scope immediate children. -/
def discover_regions (cat : CatSite) (root : List Char) : Option (List (List Char)) :=
  (cat (norm_cat root)).map (fun hrefs =>
    pySorted (regionsGo (norm_cat root)
      (splitSlash (stripSlash (norm_cat root))).length hrefs []))

/-- The filtering loop of `discover_subregions` (one level below a region;
no root-exclusion check). -/
def subsGo (baseLen : Nat) : List (List Char) → List (List Char) → List (List Char)
  | [], _ => []
  | href :: rest, seen =>
    if scopePfx href = true then
      if (splitSlash (stripSlash (norm_cat href))).length = baseLen + 1 ∧
          norm_cat href ∉ seen then
        norm_cat href :: subsGo baseLen rest (norm_cat href :: seen)
      else subsGo baseLen rest seen
    else subsGo baseLen rest seen

/-- `discover_subregions(region_url)`. -/
def discover_subregions (cat : CatSite) (region_url : List Char) :
    Option (List (List Char)) :=
  (cat (norm_cat region_url)).map (fun hrefs =>
    pySorted (subsGo (splitSlash (stripSlash (norm_cat region_url))).length hrefs []))

/-- The `(target, page_url)` pairs one target contributes:
`discover_pagination_for_sell(norm_cat(target) + "sell/")`. -/
def sellPagesFor (site : Site) (t : List Char) : List (List Char × List Char) :=
  (discover_pagination_for_sell site (norm_cat t ++ "sell/".data) 300).map (fun p => (t, p))

/-- Listing pages of a whole target list, in order. -/
def sellPagesAll (site : Site) : List (List Char) → List (List Char × List Char)
  | [] => []
  | t :: ts => sellPagesFor site t ++ sellPagesAll site ts

/-- The per-region loop of `phase1_discover_inventory`; a raised
`discover_subregions` fetch propagates (`none`). -/
def phase1_loop (cat : CatSite) (site : Site) (incl : Bool) :
    List (List Char) →
      Option (List (List Char × List (List Char)) × List (List Char × List Char))
  | [] => some ([], [])
  | reg :: rest => do
    let subs ← discover_subregions cat reg
    let targets := if subs ≠ [] then subs else if incl then [reg] else []
    let prev ← phase1_loop cat site incl rest
    some ((reg, subs) :: prev.1, sellPagesAll site targets ++ prev.2)

/-- `phase1_discover_inventory(root, include_region_if_no_subs)`: regions,
subregions per region, and the listing pages of every target.  `none`
models the run dying on an unhandled fetch exception. -/
def phase1_discover_inventory (cat : CatSite) (site : Site) (incl : Bool)
    (root : List Char) :
    Option (List (List Char) × List (List Char × List (List Char)) ×
      List (List Char × List Char)) := do
  let regions ← discover_regions cat root
  let pr ← phase1_loop cat site incl regions
  some (regions, pr.1, pr.2)

/-- The category-page URLs passed to `get_soup` during phase 1, in order:
`discover_regions` fetches the normalized root, then `phase1` calls
`discover_subregions` on each discovered region, which fetches the region's
re-normalized URL.  Pagination fetches only `/sell/` listing URLs, never a
category URL, and when a fetch raises mid-run the realised trace is a
prefix of this list. -/
def phase1_cat_fetches (cat : CatSite) (root : List Char) : List (List Char) :=
  norm_cat root ::
    (match discover_regions cat root with
     | none => []
     | some regs => regs.map norm_cat)

/-! ### Claim C3: each canonical category URL fetched at most once -/

theorem regionsGo_nodup (rootN : List Char) (baseLen : Nat) :
    ∀ (hrefs seen : List (List Char)),
      (regionsGo rootN baseLen hrefs seen).Nodup ∧
      ∀ x ∈ regionsGo rootN baseLen hrefs seen, x ∉ seen ∧ x ≠ rootN := by
  intro hrefs
  induction hrefs with
  | nil =>
    intro seen
    constructor
    · simp [regionsGo]
    · intro x hx
      simp [regionsGo] at hx
  | cons href rest ih =>
    intro seen
    by_cases hsc : scopePfx href = true
    · by_cases hc : norm_cat href ≠ rootN ∧ norm_cat href ∉ seen ∧
          (splitSlash (stripSlash (norm_cat href))).length = baseLen + 1
      · have hgo : regionsGo rootN baseLen (href :: rest) seen =
            norm_cat href :: regionsGo rootN baseLen rest (norm_cat href :: seen) := by
          simp only [regionsGo, if_pos hsc, if_pos hc]
        rw [hgo]
        obtain ⟨ihn, ihm⟩ := ih (norm_cat href :: seen)
        constructor
        · apply List.Nodup.cons
          · intro hmem
            exact ((ihm _ hmem).1 (by simp))
          · exact ihn
        · intro x hx
          rcases List.mem_cons.mp hx with rfl | hx'
          · exact ⟨hc.2.1, hc.1⟩
          · obtain ⟨hs, hr⟩ := ihm x hx'
            exact ⟨fun hmem => hs (by simp [hmem]), hr⟩
      · have hgo : regionsGo rootN baseLen (href :: rest) seen =
            regionsGo rootN baseLen rest seen := by
          simp only [regionsGo, if_pos hsc, if_neg hc]
        rw [hgo]
        exact ih seen
    · have hgo : regionsGo rootN baseLen (href :: rest) seen =
          regionsGo rootN baseLen rest seen := by
        simp only [regionsGo, if_neg hsc]
      rw [hgo]
      exact ih seen

theorem discover_regions_nodup (cat : CatSite) (root : List Char) :
    ((discover_regions cat root).getD []).Nodup ∧
    norm_cat root ∉ (discover_regions cat root).getD [] := by
  cases hcat : cat (norm_cat root) with
  | none => simp [discover_regions, hcat]
  | some hrefs =>
    have hd : (discover_regions cat root).getD [] =
        pySorted (regionsGo (norm_cat root)
          (splitSlash (stripSlash (norm_cat root))).length hrefs []) := by
      simp [discover_regions, hcat]
    obtain ⟨hn, hm⟩ := regionsGo_nodup (norm_cat root)
      (splitSlash (stripSlash (norm_cat root))).length hrefs []
    have hperm := pySorted_perm (regionsGo (norm_cat root)
      (splitSlash (stripSlash (norm_cat root))).length hrefs [])
    constructor
    · rw [hd]
      exact hperm.nodup_iff.mpr hn
    · rw [hd]
      intro hmem
      exact (hm _ (hperm.mem_iff.mp hmem)).2 rfl

theorem map_norm_cat_id : ∀ {l : List (List Char)},
    (∀ x ∈ l, norm_cat x = x) → l.map norm_cat = l := by
  intro l
  induction l with
  | nil => intro _; rfl
  | cons a t ih =>
    intro h
    simp only [List.map_cons]
    rw [h a (by simp), ih fun x hx => h x (by simp [hx])]

/-- Two spellings of the same category on the root page: with and without a
doubled slash before the `/sell` tail. -/
def c3xH1 : List Char := "/lv/real-estate/plots-and-lands/cesu-raj/sell".data

/-- See `c3xH1`. -/
def c3xH2 : List Char := "/lv/real-estate/plots-and-lands/cesu-raj//sell".data

/-- Root page carrying both spellings; every other page is empty. -/
def c3xCat : CatSite := fun url =>
  if url = norm_cat ROOT then some [c3xH1, c3xH2] else some []

/-- C3 (counterexample): the two spellings normalize to *different* region
URLs (`.../cesu-raj/` and `.../cesu-raj//`), both pass the dedup and depth
filters, and `discover_subregions` then re-normalizes each to the same
canonical URL `.../cesu-raj/` — which is therefore fetched twice.  The
claimed "never fetches the same canonical URL twice" fails. -/
theorem c3_discovery_refetch_counterexample :
    ¬ (phase1_cat_fetches c3xCat ROOT).Nodup := by decide

/-- C3 (amended): phase-1 discovery fetches every canonical category URL at
most once *provided* each discovered region URL is a fixed point of
`norm_cat` (true for every normally-spelled href; two degenerate spellings
of one category, e.g. with a doubled slash, can defeat the dedup, see the
counterexample).  Subregion pages are never fetched at all, and the trace
is finite by construction, so discovery terminates. -/
theorem c3_discovery_fetch_once_amended (cat : CatSite) (root : List Char)
    (hfix : ∀ u ∈ (discover_regions cat root).getD [], norm_cat u = u) :
    (phase1_cat_fetches cat root).Nodup := by
  obtain ⟨hnd, hnr⟩ := discover_regions_nodup cat root
  cases hd : discover_regions cat root with
  | none => simp [phase1_cat_fetches, hd]
  | some regs =>
    have hregs : (discover_regions cat root).getD [] = regs := by simp [hd]
    rw [hregs] at hnd hnr hfix
    have : phase1_cat_fetches cat root = norm_cat root :: regs.map norm_cat := by
      simp [phase1_cat_fetches, hd]
    rw [this, map_norm_cat_id hfix]
    exact List.Nodup.cons hnr hnd

/-- A root page with two normally-spelled region hrefs. -/
def c3wCat : CatSite := fun url =>
  if url = norm_cat ROOT then
    some ["/lv/real-estate/plots-and-lands/riga/sell".data,
      "/lv/real-estate/plots-and-lands/jurmala/sell".data]
  else some []

/-- C3 (witness): on a two-region site the category fetch trace is
duplicate-free. -/
theorem c3_discovery_fetch_once_witness :
    (∀ u ∈ (discover_regions c3wCat ROOT).getD [], norm_cat u = u) ∧
    (phase1_cat_fetches c3wCat ROOT).Nodup :=
  ⟨by decide, c3_discovery_fetch_once_amended c3wCat ROOT (by decide)⟩

/-! ### Claim C9: fetch-failure tolerance -/

theorem allLinks_append (site : Site) :
    ∀ (ps1 ps2 : List (List Char × List Char)),
      allLinks site (ps1 ++ ps2) = allLinks site ps1 ++ allLinks site ps2 := by
  intro ps1
  induction ps1 with
  | nil => intro ps2; rfl
  | cons op rest ih =>
    intro ps2
    simp only [List.cons_append, allLinks]
    rw [show rest.append ps2 = rest ++ ps2 from rfl, ih, List.append_assoc]

/-- The listing request model with its exception path: `none` models
`sess().get` raising — a transport error, or the retry budget exhausted on
a retryable status (429/5xx are retried by the session's `Retry` adapter and
surface as a raised `RetryError`, never as a returned response); `some r`
is a response that was actually returned (e.g. an immediate 404).  `Site`
is the restriction of this model to runs in which every request returns a
response (see the `..._total` agreement lemmas below). -/
abbrev RaisingSite : Type := List Char → Option Resp

/-- `listing_rows` over the raising model: the `sess().get` call at the top
of the function is not wrapped, so a raise propagates to the caller; a
*returned* non-200 status yields `([], r.url)`. -/
def listing_rowsE (site : RaisingSite) (url : List Char) :
    Option (List Row × List Char) :=
  match site url with
  | none => none
  | some r =>
    if r.status ≠ 200 then some ([], r.finalUrl) else some (r.rows, r.finalUrl)

/-- The loop of `collect_ad_links_from_pages` over the raising model: the
unwrapped `sess().get(page_url)` makes a raise propagate out of the
function, losing even the links accumulated so far. -/
def collect_goE (site : RaisingSite) :
    List (List Char × List Char) → List (List Char) → List (List Char) →
      Option (List (List Char))
  | [], _, acc => some acc
  | op :: rest, seen, acc =>
    match site op.2 with
    | none => none
    | some r =>
      if r.status ≠ 200 then collect_goE site rest seen acc
      else collect_goE site rest (addRows r.rows seen acc).1 (addRows r.rows seen acc).2

/-- `collect_ad_links_from_pages` over the raising model. -/
def collect_ad_links_from_pagesE (site : RaisingSite)
    (listing_pages : List (List Char × List Char)) : Option (List (List Char)) :=
  collect_goE site listing_pages [] []

/-- The pagination loop over the raising model: a raise inside
`listing_rows` propagates, losing the pages already found for the
category. -/
def discover_goE (site : RaisingSite) (sell_url : List Char) :
    Nat → Nat → Option (List (List Char))
  | 0, _ => some []
  | fuel + 1, page =>
    match listing_rowsE site (pageUrl sell_url page) with
    | none => none
    | some pr =>
      if 1 < page ∧ rstripSlash pr.2 ≠ rstripSlash (pageUrl sell_url page) then some []
      else if pr.1 = [] then some []
      else (discover_goE site sell_url fuel (page + 1)).map
        (fun ps => pageUrl sell_url page :: ps)

/-- `discover_pagination_for_sell` over the raising model. -/
def discover_pagination_for_sellE (site : RaisingSite) (sell_url : List Char)
    (max_pages : Nat) : Option (List (List Char)) :=
  discover_goE site sell_url max_pages 1

theorem discover_goE_succ (site : RaisingSite) (u : List Char) (fuel page : Nat) :
    discover_goE site u (fuel + 1) page =
      match listing_rowsE site (pageUrl u page) with
      | none => none
      | some pr =>
        if 1 < page ∧ rstripSlash pr.2 ≠ rstripSlash (pageUrl u page) then some []
        else if pr.1 = [] then some []
        else (discover_goE site u fuel (page + 1)).map
          (fun ps => pageUrl u page :: ps) := rfl

/-- On a run in which every request returns, the raising model of
`listing_rows` agrees with the total one. -/
theorem listing_rowsE_total (site : Site) (url : List Char) :
    listing_rowsE (fun w => some (site w)) url = some (listing_rows site url) := by
  by_cases h : (site url).status ≠ 200
  · simp only [listing_rowsE, listing_rows, if_pos h]
  · simp only [listing_rowsE, listing_rows, if_neg h]

theorem collect_goE_total (site : Site) :
    ∀ (ps : List (List Char × List Char)) (seen acc : List (List Char)),
      collect_goE (fun w => some (site w)) ps seen acc =
        some (collect_go site ps seen acc) := by
  intro ps
  induction ps with
  | nil => intro seen acc; rfl
  | cons op rest ih =>
    intro seen acc
    by_cases h : (site op.2).status ≠ 200
    · simp only [collect_goE, collect_go, if_pos h]
      exact ih seen acc
    · simp only [collect_goE, collect_go, if_neg h]
      exact ih _ _

/-- On a run in which every request returns, the raising model of
`collect_ad_links_from_pages` agrees with the total one. -/
theorem collect_ad_links_from_pagesE_total (site : Site)
    (pages : List (List Char × List Char)) :
    collect_ad_links_from_pagesE (fun w => some (site w)) pages =
      some (collect_ad_links_from_pages site pages) :=
  collect_goE_total site pages [] []

theorem discover_goE_total (site : Site) (u : List Char) :
    ∀ (fuel page : Nat),
      discover_goE (fun w => some (site w)) u fuel page =
        some (discover_go site u fuel page) := by
  intro fuel
  induction fuel with
  | zero => intro page; rfl
  | succ fuel ih =>
    intro page
    rw [discover_goE_succ, discover_go_succ, listing_rowsE_total]
    dsimp only
    by_cases h1 : 1 < page ∧
        rstripSlash (listing_rows site (pageUrl u page)).2 ≠ rstripSlash (pageUrl u page)
    · rw [if_pos h1, if_pos h1]
    · rw [if_neg h1, if_neg h1]
      by_cases h2 : (listing_rows site (pageUrl u page)).1 = []
      · rw [if_pos h2, if_pos h2]
      · rw [if_neg h2, if_neg h2, ih]
        rfl

/-- On a run in which every request returns, the raising model of
pagination agrees with the total one. -/
theorem discover_pagination_for_sellE_total (site : Site) (u : List Char) (m : Nat) :
    discover_pagination_for_sellE (fun w => some (site w)) u m =
      some (discover_pagination_for_sell site u m) :=
  discover_goE_total site u m 1

/-- A listing page whose fetch *returns* a non-200 status is skipped: the
collection over the remaining pages is unchanged. -/
theorem collect_goE_skip (site : RaisingSite) {p : List Char × List Char} {r : Resp}
    (hp : site p.2 = some r) (hst : r.status ≠ 200) :
    ∀ (ps1 ps2 : List (List Char × List Char)) (seen acc : List (List Char)),
      collect_goE site (ps1 ++ p :: ps2) seen acc =
        collect_goE site (ps1 ++ ps2) seen acc := by
  intro ps1
  induction ps1 with
  | nil =>
    intro ps2 seen acc
    simp only [List.nil_append, collect_goE, hp]
    rw [if_pos hst]
  | cons op rest ih =>
    intro ps2 seen acc
    simp only [List.cons_append, collect_goE]
    cases hso : site op.2 with
    | none => rfl
    | some r' =>
      by_cases h' : r'.status ≠ 200
      · simp only [if_pos h']
        exact ih ps2 seen acc
      · simp only [if_neg h']
        exact ih ps2 _ _

/-- A listing page whose fetch raises kills the whole collection: the
accumulated links are discarded and nothing is returned. -/
theorem collect_goE_raise (site : RaisingSite) {q : List Char × List Char}
    (hq : site q.2 = none) :
    ∀ (qs1 qs2 : List (List Char × List Char)) (seen acc : List (List Char)),
      collect_goE site (qs1 ++ q :: qs2) seen acc = none := by
  intro qs1
  induction qs1 with
  | nil =>
    intro qs2 seen acc
    simp only [List.nil_append, collect_goE, hq]
  | cons op rest ih =>
    intro qs2 seen acc
    simp only [List.cons_append, collect_goE]
    cases hso : site op.2 with
    | none => rfl
    | some r' =>
      by_cases h' : r'.status ≠ 200
      · simp only [if_pos h']
        exact ih qs2 seen acc
      · simp only [if_neg h']
        exact ih qs2 _ _

/-- The region whose category page raises in the C9 counterexample. -/
def c9xReg : List Char := ROOT ++ "aaa/".data

/-- Root page with two regions; fetching region `aaa`'s own page raises
(`none`); everything else is fine. -/
def c9xCat : CatSite := fun url =>
  if url = norm_cat ROOT then
    some ["/lv/real-estate/plots-and-lands/aaa/sell".data,
      "/lv/real-estate/plots-and-lands/bbb/sell".data]
  else if url = c9xReg then none
  else some []

/-- Listing site used by the C9 counterexample (never consulted before the
run dies). -/
def c9xSite : Site := fun url => ⟨404, [], url⟩

/-- Raising listing site for the C9 counterexample: page `p1` returns one
ad row, page `p2` raises (transport error or retry budget exhausted). -/
def c9x2Site : RaisingSite := fun url =>
  if url = "p1".data then some ⟨200, [rowA], "p1".data⟩
  else if url = "p2".data then none
  else some ⟨200, [], url⟩

/-- C9 (counterexample): a fetch failure on a *single* node or listing page
can terminate the run and discard results already produced.  (a) A raised
fetch of one region's category page propagates out of
`phase1_discover_inventory`: the run dies with no inventory, instead of
skipping the node and continuing with region `bbb`.  (b) A raised fetch of
one listing page propagates out of `collect_ad_links_from_pages`
(`sess().get` there is unwrapped): collecting over page `p1` alone yields
its ad link, but adding the raising page `p2` returns nothing at all — the
already-collected link is discarded rather than only `p2` being skipped. -/
theorem c9_raising_fetch_kills_run_counterexample :
    (c9xCat c9xReg = none ∧
      phase1_discover_inventory c9xCat c9xSite true ROOT = none) ∧
    (c9x2Site "p2".data = none ∧
      collect_ad_links_from_pagesE c9x2Site [(ROOT, "p1".data)] =
        some [BASE ++ "/msg/lv/real-estate/plots-and-lands/riga/centre/a1.html".data] ∧
      collect_ad_links_from_pagesE c9x2Site [(ROOT, "p1".data), (ROOT, "p2".data)] =
        none) :=
  ⟨⟨by decide, rfl⟩, ⟨by decide, by decide, by decide⟩⟩

/-- C9 (amended): only two failure modes are tolerated.  Any failure while
fetching or parsing a single ad link is caught and skips only that ad; and
a listing-page request that *returns* a non-2xx response (a non-retryable
status such as 404) is skipped during link collection — the remaining pages
and the links already collected are unaffected — and yields an empty row
list during pagination.  A request that *raises* — a transport error, or
the retry budget exhausted on a retryable status — is uncaught on listing
pages exactly as on category pages: it propagates out of the collection
loop and out of pagination, terminating the run and discarding the results
accumulated so far (see the counterexample for the category-page case). -/
theorem c9_failure_tolerance_amended (site : RaisingSite) (adSite : AdSite)
    (p q : List Char × List Char) (ps1 ps2 qs1 qs2 : List (List Char × List Char))
    (l1 l2 : List (List Char)) (bad u : List Char) (r r1 : Resp)
    (hp : site p.2 = some r) (hst : r.status ≠ 200)
    (had : adSite bad = none)
    (hq : site q.2 = none)
    (h1 : site (pageUrl u 1) = some r1) (h1st : r1.status = 200)
    (h1rows : r1.rows ≠ []) (h2 : site (pageUrl u 2) = none) :
    collect_ad_links_from_pagesE site (ps1 ++ p :: ps2) =
      collect_ad_links_from_pagesE site (ps1 ++ ps2) ∧
    phase2_details adSite (l1 ++ bad :: l2) = phase2_details adSite (l1 ++ l2) ∧
    listing_rowsE site p.2 = some ([], r.finalUrl) ∧
    listing_rowsE site q.2 = none ∧
    collect_ad_links_from_pagesE site (qs1 ++ q :: qs2) = none ∧
    discover_pagination_for_sellE site u 300 = none := by
  refine ⟨?_, ?_, ?_, ?_, ?_, ?_⟩
  · exact collect_goE_skip site hp hst ps1 ps2 [] []
  · have hparse : parse_ad_details adSite bad = none := by
      rw [parse_ad_details, had]
      rfl
    simp only [phase2_details, List.filterMap_append]
    rw [List.filterMap_cons_none hparse]
  · simp only [listing_rowsE, hp]
    rw [if_pos hst]
  · simp only [listing_rowsE, hq]
  · exact collect_goE_raise site hq qs1 qs2 [] []
  · have e2 : discover_goE site u 299 2 = none := by
      show discover_goE site u (298 + 1) 2 = none
      rw [discover_goE_succ]
      simp only [listing_rowsE, h2]
    have hlr : listing_rowsE site (pageUrl u 1) = some (r1.rows, r1.finalUrl) := by
      simp only [listing_rowsE, h1]
      rw [if_neg (by simp [h1st])]
    show discover_goE site u (299 + 1) 1 = none
    rw [discover_goE_succ, hlr]
    dsimp only
    rw [if_neg (by simp), if_neg h1rows, e2]
    rfl

/-- Failing ad site for the C9 witness. -/
def c9wAdSite : AdSite := fun _ => none

/-- Raising listing site for the C9 witness: `g` is a good page, `y`
returns a 404, `z` raises, sell page 1 of `s` is good and its page 2
raises. -/
def c9w2Site : RaisingSite := fun url =>
  if url = "g".data then some ⟨200, [rowA], "g".data⟩
  else if url = "y".data then some ⟨404, [], "y".data⟩
  else if url = "z".data then none
  else if url = "s".data then some ⟨200, [rowA], "s".data⟩
  else if url = pageUrl "s".data 2 then none
  else some ⟨200, [], url⟩

/-- C9 (witness): the amended tolerance properties on a concrete run — the
returned 404 page is skipped with the good page's link kept, the failed ad
is skipped, and the raising page (or raising page 2 of a pagination) kills
its stage. -/
theorem c9_failure_tolerance_witness :
    (c9w2Site ("o".data, "y".data).2 = some ⟨404, [], "y".data⟩ ∧
      (⟨404, [], "y".data⟩ : Resp).status ≠ 200 ∧
      c9wAdSite "b".data = none ∧
      c9w2Site ("o".data, "z".data).2 = none ∧
      c9w2Site (pageUrl "s".data 1) = some ⟨200, [rowA], "s".data⟩ ∧
      (⟨200, [rowA], "s".data⟩ : Resp).status = 200 ∧
      (⟨200, [rowA], "s".data⟩ : Resp).rows ≠ [] ∧
      c9w2Site (pageUrl "s".data 2) = none) ∧
    (collect_ad_links_from_pagesE c9w2Site
        ([("o".data, "g".data)] ++ ("o".data, "y".data) :: []) =
      collect_ad_links_from_pagesE c9w2Site ([("o".data, "g".data)] ++ []) ∧
    phase2_details c9wAdSite ([] ++ "b".data :: []) = phase2_details c9wAdSite ([] ++ []) ∧
    listing_rowsE c9w2Site ("o".data, "y".data).2 = some ([], "y".data) ∧
    listing_rowsE c9w2Site ("o".data, "z".data).2 = none ∧
    collect_ad_links_from_pagesE c9w2Site
      ([("o".data, "g".data)] ++ ("o".data, "z".data) :: []) = none ∧
    discover_pagination_for_sellE c9w2Site "s".data 300 = none) :=
  ⟨⟨by decide, by decide, by decide, by decide, by decide, by decide, by decide,
      by decide⟩,
    c9_failure_tolerance_amended c9w2Site c9wAdSite ("o".data, "y".data)
      ("o".data, "z".data) [("o".data, "g".data)] [] [("o".data, "g".data)] [] [] []
      "b".data "s".data ⟨404, [], "y".data⟩ ⟨200, [rowA], "s".data⟩
      (by decide) (by decide) (by decide) (by decide) (by decide) (by decide)
      (by decide) (by decide)⟩

/-! ### Claim C1: final output dedup -/

theorem keepFirst_mem :
    ∀ (n : Nat) (l : List (List Char)), l.length ≤ n →
      ∀ x ∈ keepFirst l, x ∈ l := by
  intro n
  induction n with
  | zero =>
    intro l hl x hx
    rw [List.length_eq_zero.mp (Nat.le_zero.mp hl)] at hx ⊢
    rw [keepFirst_nil] at hx
    exact hx
  | succ n ih =>
    intro l hl x hx
    cases l with
    | nil =>
      rw [keepFirst_nil] at hx
      exact hx
    | cons a t =>
      rw [keepFirst_cons] at hx
      rcases List.mem_cons.mp hx with rfl | hx'
      · exact List.mem_cons_self _ _
      · have hlen : (t.filter (fun y => decide (¬ y = a))).length ≤ n :=
          Nat.le_trans (List.length_filter_le _ _) (Nat.le_of_succ_le_succ hl)
        have := ih _ hlen x hx'
        exact List.mem_cons_of_mem a (List.mem_of_mem_filter this)

theorem keepFirst_nodup :
    ∀ (n : Nat) (l : List (List Char)), l.length ≤ n → (keepFirst l).Nodup := by
  intro n
  induction n with
  | zero =>
    intro l hl
    rw [List.length_eq_zero.mp (Nat.le_zero.mp hl), keepFirst_nil]
    exact List.nodup_nil
  | succ n ih =>
    intro l hl
    cases l with
    | nil =>
      rw [keepFirst_nil]
      exact List.nodup_nil
    | cons a t =>
      rw [keepFirst_cons]
      have hlen : (t.filter (fun y => decide (¬ y = a))).length ≤ n :=
        Nat.le_trans (List.length_filter_le _ _) (Nat.le_of_succ_le_succ hl)
      apply List.Nodup.cons
      · intro hmem
        have := keepFirst_mem n _ hlen a hmem
        have := List.of_mem_filter this
        simp at this
      · exact ih _ hlen

theorem drop_duplicates_map_link :
    ∀ (rs : List FinalRecord) (seen : List (List Char)),
      (drop_duplicates_by_link seen rs).map FinalRecord.link =
        dedupSeen seen (rs.map FinalRecord.link) := by
  intro rs
  induction rs with
  | nil => intro seen; rfl
  | cons r rs ih =>
    intro seen
    by_cases h : r.link ∈ seen
    · simp only [drop_duplicates_by_link, if_pos h, List.map_cons, dedupSeen]
      exact ih seen
    · simp only [drop_duplicates_by_link, if_neg h, List.map_cons, dedupSeen]
      rw [ih (r.link :: seen)]

theorem dedupSeen_nil_eq_keepFirst (l : List (List Char)) :
    dedupSeen [] l = keepFirst l := by
  rw [dedupSeen_eq_keepFirst]
  have hfil : l.filter (fun y => decide (¬ y ∈ ([] : List (List Char)))) = l := by
    apply List.filter_eq_self.mpr
    intro y _
    simp
  rw [hfil]

/-- C1: the link-aggregation step returns the raw link stream deduplicated
by exact URL in first-seen order across all pages; the final record
collection of phase 2 keeps, for every link value, exactly the first
produced record (its link column is the first-seen-order dedup of the
pre-dedup record links, hence duplicate-free). -/
theorem c1_global_dedup_first_seen (site : Site) (adSite : AdSite) (utcSec : Nat)
    (tzOffSec : Int) (pages : List (List Char × List Char)) :
    collect_ad_links_from_pages site pages = keepFirst (allLinks site pages) ∧
    (phase2_scrape_inventory site adSite utcSec tzOffSec pages).map FinalRecord.link =
      keepFirst (((phase2_details adSite (collect_ad_links_from_pages site pages)).map
        (fun d => normalize_row d (localDate utcSec tzOffSec))).map FinalRecord.link) ∧
    ((phase2_scrape_inventory site adSite utcSec tzOffSec pages).map
      FinalRecord.link).Nodup := by
  have hmap : (phase2_scrape_inventory site adSite utcSec tzOffSec pages).map
      FinalRecord.link =
      keepFirst (((phase2_details adSite (collect_ad_links_from_pages site pages)).map
        (fun d => normalize_row d (localDate utcSec tzOffSec))).map FinalRecord.link) := by
    rw [phase2_scrape_inventory, drop_duplicates_map_link, dedupSeen_nil_eq_keepFirst]
  refine ⟨collect_eq_keepFirst site pages, hmap, ?_⟩
  rw [hmap]
  exact keepFirst_nodup _ _ (Nat.le_refl _)

/-! ### Claims C6 and C7: price and area normalization -/

/-- C6: on `"15 000 € (150,00 €/m²)"` the price pipeline yields
`Cena EUR = 15000` and `Cena m2 = 150` (the parenthesized `150,00` parses,
via space removal and comma-to-dot, to the number 150); and whenever a
pattern finds no match the corresponding field is null — not zero and not
an exception. -/
theorem c6_price_normalization :
    (cenaEUR_of "15 000 € (150,00 €/m²)".data = some 15000 ∧
      cenaM2_of "15 000 € (150,00 €/m²)".data = some 150) ∧
    (∀ s, extractP1 s = none → cenaEUR_of s = none) ∧
    (∀ s, extractP2 s = none → cenaM2_of s = none) := by
  refine ⟨⟨by decide, by decide⟩, ?_, ?_⟩
  · intro s h
    rw [cenaEUR_of, h]
    rfl
  · intro s h
    rw [cenaM2_of, h]
    rfl

/-- C6 (witness): `"NA"` matches neither price pattern and both numeric
columns are null. -/
theorem c6_price_normalization_witness :
    (extractP1 "NA".data = none ∧ cenaEUR_of "NA".data = none) ∧
    (extractP2 "NA".data = none ∧ cenaM2_of "NA".data = none) :=
  ⟨⟨by decide, c6_price_normalization.2.1 "NA".data (by decide)⟩,
    ⟨by decide, c6_price_normalization.2.2 "NA".data (by decide)⟩⟩

/-- C7 (counterexample): the area regex group is `[\d\.,]+` — it does *not*
accept spaces, so the claimed space-separated thousands are split at the
first space: `"2 500 m²"` yields quantity 2 with unit `"500 m²"`, not
quantity 2500 with unit `"m²"`. -/
theorem c7_area_thousands_counterexample :
    platibaDaudzums_of "2 500 m²".data = some 2 ∧
    platibaMervieniba_of "2 500 m²".data = "500 m²".data ∧
    ¬ platibaDaudzums_of "2 500 m²".data = some 2500 :=
  ⟨by decide, by decide, by decide⟩

/-- C7 (amended): the area string is split into the leading run of digits,
dots and commas (comma read as a decimal separator — but *no* space
acceptance, so space-separated thousands stop the quantity at the first
space) and the trailing unit text after any whitespace: `"2500 m²"` yields
quantity 2500 and unit `"m²"`, `"2,5 ha"` yields 5/2 and `"ha"`, and a
non-numeric string such as `"NA"` yields a null quantity and an empty unit,
never an error. -/
theorem c7_area_normalization_amended :
    (platibaDaudzums_of "2500 m²".data = some 2500 ∧
      platibaMervieniba_of "2500 m²".data = "m²".data) ∧
    (platibaDaudzums_of "2,5 ha".data = some (mkRat 5 2) ∧
      platibaMervieniba_of "2,5 ha".data = "ha".data) ∧
    (platibaDaudzums_of "NA".data = none ∧ platibaMervieniba_of "NA".data = []) ∧
    (∀ s, extractP3 s = none →
      platibaDaudzums_of s = none ∧ platibaMervieniba_of s = []) := by
  refine ⟨⟨by decide, by decide⟩, ⟨by decide, by decide⟩, ⟨by decide, by decide⟩, ?_⟩
  intro s h
  constructor
  · rw [platibaDaudzums_of, h]
    rfl
  · rw [platibaMervieniba_of, h]

/-- C7 (witness): the no-match branch applied to `"NA"`. -/
theorem c7_area_normalization_witness :
    extractP3 "NA".data = none ∧
    (platibaDaudzums_of "NA".data = none ∧ platibaMervieniba_of "NA".data = []) :=
  ⟨by decide, c7_area_normalization_amended.2.2.2 "NA".data (by decide)⟩

/-! ### Claim C8: missing identifiers yield the sentinel, never an error -/

/-- The text the page carries under a structural id, if any. -/
def findText (page : List (List Char × List Char)) (eid : List Char) :
    Option (List Char) :=
  (page.find? (fun p => p.1 == eid)).map (fun p => p.2)

theorem extract_text_by_id_of_none {page : List (List Char × List Char)}
    {eid : List Char} (d : List Char) (h : findText page eid = none) :
    extract_text_by_id page eid d = d := by
  rw [extract_text_by_id]
  cases hf : page.find? (fun p => p.1 == eid) with
  | none => rfl
  | some p =>
    rw [findText, hf] at h
    simp at h

theorem extract_text_by_id_of_some {page : List (List Char × List Char)}
    {eid t : List Char} (d : List Char) (h : findText page eid = some t) :
    extract_text_by_id page eid d = t := by
  rw [extract_text_by_id]
  cases hf : page.find? (fun p => p.1 == eid) with
  | none =>
    rw [findText, hf] at h
    simp at h
  | some p =>
    rw [findText, hf] at h
    simp at h
    exact h

/-- C8: when the ad-page fetch succeeds, a record is always produced; every
id-keyed field whose identifier is absent from the page is the sentinel
`"NA"`, and every field whose identifier is present carries that element's
text. -/
theorem c8_missing_id_sentinel (adSite : AdSite) (url : List Char) (pg : AdPage)
    (h : adSite url = some pg) :
    ∃ r, parse_ad_details adSite url = some r ∧ r.link = url ∧
      ((findText pg.idTexts "tdo_20".data = none → r.pilseta = "NA".data) ∧
        ∀ t, findText pg.idTexts "tdo_20".data = some t → r.pilseta = t) ∧
      ((findText pg.idTexts "tdo_11".data = none → r.iela = "NA".data) ∧
        ∀ t, findText pg.idTexts "tdo_11".data = some t → r.iela = t) ∧
      ((findText pg.idTexts "tdo_368".data = none → r.ciems = "NA".data) ∧
        ∀ t, findText pg.idTexts "tdo_368".data = some t → r.ciems = t) ∧
      ((findText pg.idTexts "tdo_3".data = none → r.platiba = "NA".data) ∧
        ∀ t, findText pg.idTexts "tdo_3".data = some t → r.platiba = t) ∧
      ((findText pg.idTexts "tdo_8".data = none → r.cena = "NA".data) ∧
        ∀ t, findText pg.idTexts "tdo_8".data = some t → r.cena = t) ∧
      ((findText pg.idTexts "tdo_228".data = none → r.zemesTips = "NA".data) ∧
        ∀ t, findText pg.idTexts "tdo_228".data = some t → r.zemesTips = t) ∧
      ((findText pg.idTexts "tdo_1631".data = none → r.zemesNumurs = "NA".data) ∧
        ∀ t, findText pg.idTexts "tdo_1631".data = some t → r.zemesNumurs = t) ∧
      r.datums = extract_datums pg := by
  refine ⟨_, by rw [parse_ad_details, h]; rfl, rfl,
    ⟨fun hn => extract_text_by_id_of_none _ hn,
      fun t ht => extract_text_by_id_of_some _ ht⟩,
    ⟨fun hn => extract_text_by_id_of_none _ hn,
      fun t ht => extract_text_by_id_of_some _ ht⟩,
    ⟨fun hn => extract_text_by_id_of_none _ hn,
      fun t ht => extract_text_by_id_of_some _ ht⟩,
    ⟨fun hn => extract_text_by_id_of_none _ hn,
      fun t ht => extract_text_by_id_of_some _ ht⟩,
    ⟨fun hn => extract_text_by_id_of_none _ hn,
      fun t ht => extract_text_by_id_of_some _ ht⟩,
    ⟨fun hn => extract_text_by_id_of_none _ hn,
      fun t ht => extract_text_by_id_of_some _ ht⟩,
    ⟨fun hn => extract_text_by_id_of_none _ hn,
      fun t ht => extract_text_by_id_of_some _ ht⟩,
    rfl⟩

/-- URL of the C8 witness ad. -/
def c8wUrl : List Char :=
  BASE ++ "/msg/lv/real-estate/plots-and-lands/riga/centre/a2.html".data

/-- A page missing the `tdo_20` (city) identifier but carrying area and
price. -/
def c8wPg : AdPage :=
  ⟨[("tdo_3".data, "2500 m²".data), ("tdo_8".data, "15 000 €".data)], none⟩

/-- Ad site serving the single C8 witness page. -/
def c8wAdSite : AdSite := fun url => if url = c8wUrl then some c8wPg else none

/-- C8 (witness): on a page without the city identifier, the record is still
produced, the city field is the `"NA"` sentinel, and the present fields are
populated. -/
theorem c8_missing_id_sentinel_witness :
    c8wAdSite c8wUrl = some c8wPg ∧
    (∃ r, parse_ad_details c8wAdSite c8wUrl = some r ∧ r.link = c8wUrl ∧
      ((findText c8wPg.idTexts "tdo_20".data = none → r.pilseta = "NA".data) ∧
        ∀ t, findText c8wPg.idTexts "tdo_20".data = some t → r.pilseta = t) ∧
      ((findText c8wPg.idTexts "tdo_11".data = none → r.iela = "NA".data) ∧
        ∀ t, findText c8wPg.idTexts "tdo_11".data = some t → r.iela = t) ∧
      ((findText c8wPg.idTexts "tdo_368".data = none → r.ciems = "NA".data) ∧
        ∀ t, findText c8wPg.idTexts "tdo_368".data = some t → r.ciems = t) ∧
      ((findText c8wPg.idTexts "tdo_3".data = none → r.platiba = "NA".data) ∧
        ∀ t, findText c8wPg.idTexts "tdo_3".data = some t → r.platiba = t) ∧
      ((findText c8wPg.idTexts "tdo_8".data = none → r.cena = "NA".data) ∧
        ∀ t, findText c8wPg.idTexts "tdo_8".data = some t → r.cena = t) ∧
      ((findText c8wPg.idTexts "tdo_228".data = none → r.zemesTips = "NA".data) ∧
        ∀ t, findText c8wPg.idTexts "tdo_228".data = some t → r.zemesTips = t) ∧
      ((findText c8wPg.idTexts "tdo_1631".data = none → r.zemesNumurs = "NA".data) ∧
        ∀ t, findText c8wPg.idTexts "tdo_1631".data = some t → r.zemesNumurs = t) ∧
      r.datums = extract_datums c8wPg) :=
  ⟨by decide, c8_missing_id_sentinel c8wAdSite c8wUrl c8wPg (by decide)⟩

/-! ### Claim C10: the collection-date stamp -/

theorem drop_duplicates_mem :
    ∀ (rs : List FinalRecord) (seen : List (List Char)) (r : FinalRecord),
      r ∈ drop_duplicates_by_link seen rs → r ∈ rs := by
  intro rs
  induction rs with
  | nil => intro seen r hr; simp [drop_duplicates_by_link] at hr
  | cons r' rs ih =>
    intro seen r hr
    by_cases h : r'.link ∈ seen
    · rw [drop_duplicates_by_link, if_pos h] at hr
      exact List.mem_cons_of_mem r' (ih seen r hr)
    · rw [drop_duplicates_by_link, if_neg h] at hr
      rcases List.mem_cons.mp hr with rfl | hr'
      · exact List.mem_cons_self _ _
      · exact List.mem_cons_of_mem r' (ih _ r hr')

/-- Listing page URL of the C10 run. -/
def c10Page : List Char := ROOT ++ "riga/sell/".data

/-- Listing site of the C10 run: one page, one ad row. -/
def c10Site : Site := fun url =>
  if url = c10Page then ⟨200, [rowA], c10Page⟩ else ⟨404, [], url⟩

/-- The ad URL `rowA` resolves to. -/
def c10AdUrl : List Char :=
  BASE ++ "/msg/lv/real-estate/plots-and-lands/riga/centre/a1.html".data

/-- The single ad page of the C10 run; its posted date (`Datums`) is
2024-02-01 — visibly different from any collection date. -/
def c10Pg : AdPage :=
  ⟨[("tdo_20".data, "Riga".data), ("tdo_3".data, "2500 m²".data),
    ("tdo_8".data, "15 000 € (150,00 €/m²)".data)],
    some "Datums: 01.02.2024. 10:05".data⟩

/-- Ad site of the C10 run. -/
def c10AdSite : AdSite := fun url => if url = c10AdUrl then some c10Pg else none

/-- C10 (counterexample): `datetime.today()` is *local* time, not UTC.  Run
the pipeline at UTC instant 2024-12-31 23:00:00 (epoch 1735686000) on a host
two hours east of UTC (the target site's own timezone): the produced record
is stamped `"2025-01-01"`, while the run's UTC date is `"2024-12-31"` — the
stamp does not equal the wall-clock UTC date. -/
theorem c10_collection_date_counterexample :
    (phase2_scrape_inventory c10Site c10AdSite 1735686000 7200 [(ROOT, c10Page)]).map
      FinalRecord.datuIev = ["2025-01-01".data] ∧
    formatDate 1735686000 = "2024-12-31".data ∧
    ¬ (phase2_scrape_inventory c10Site c10AdSite 1735686000 7200 [(ROOT, c10Page)]).map
        FinalRecord.datuIev = [formatDate 1735686000] :=
  ⟨by decide, by decide, by decide⟩

/-- C10 (amended): every record produced by a run is stamped with the run's
*local* wall-clock date `datetime.today()` (the `YYYY-MM-DD` date of the UTC
instant shifted by the host timezone offset) — one identical stamp for the
whole run, taken from the clock and never from an ad page; it coincides with
the UTC date exactly when the host clock runs at UTC offset zero. -/
theorem c10_collection_date_amended (site : Site) (adSite : AdSite) (utcSec : Nat)
    (tzOffSec : Int) (pages : List (List Char × List Char)) :
    ((phase2_scrape_inventory site adSite utcSec tzOffSec pages).all
      (fun r => r.datuIev == localDate utcSec tzOffSec) = true) ∧
    localDate utcSec 0 = formatDate utcSec := by
  constructor
  · rw [List.all_eq_true]
    intro r hr
    have hmem := drop_duplicates_mem _ _ _ hr
    rcases List.mem_map.mp hmem with ⟨d, _, rfl⟩
    simp [normalize_row]
  · simp [localDate]
